import Mathlib

/-!
Verification of the Wavefront-to-Grafana alert migration core
(`wavefront-grafana-migrator.py`, with `delete-bad-alert.py` a near-identical
revision of the same `QueryTranslator` / `GrafanaAlertBuilder` classes).

Python strings are embedded as `List Char`; Python `re` usage is embedded by
hand-specialised matchers for the concrete patterns appearing in the source,
scanned over every start position exactly as `re.search` / `re.findall` /
`re.split` do.  Skipping scanners take an explicit fuel argument (initialised
to `length + 1`, which is always sufficient) so that every definition reduces
inside the kernel.  Python `float` values produced by the code are embedded as
rationals: the code only parses decimal literals and stores them, it never
computes with them, and every literal exercised below is exactly
representable, so IEEE rounding is not observable.
-/

abbrev Str := List Char

def str (s : String) : Str := s.toList

/-- Python `\s` (ASCII whitespace, as used by the source's patterns). -/
def isPySpace (c : Char) : Bool :=
  c = ' ' || c = '\t' || c = '\n' || c = '\r' || c = '\x0b' || c = '\x0c'

/-- Python `\w` restricted to ASCII, which is all the source data uses. -/
def isWordChar (c : Char) : Bool := c.isAlphanum || c = '_'

/-- The character class `[\w\.\-]` from the `ts(...)` pattern. -/
def isMetricChar (c : Char) : Bool := isWordChar c || c = '.' || c = '-'

/-- The character class `[\d.]` from the threshold pattern. -/
def isDigitDot (c : Char) : Bool := c.isDigit || c = '.'

/-- ASCII lowercasing, mirroring Python `str.lower()` on the ASCII inputs
the migrator handles. -/
def pyLowerChar (c : Char) : Char :=
  match c with
  | 'A' => 'a' | 'B' => 'b' | 'C' => 'c' | 'D' => 'd' | 'E' => 'e' | 'F' => 'f'
  | 'G' => 'g' | 'H' => 'h' | 'I' => 'i' | 'J' => 'j' | 'K' => 'k' | 'L' => 'l'
  | 'M' => 'm' | 'N' => 'n' | 'O' => 'o' | 'P' => 'p' | 'Q' => 'q' | 'R' => 'r'
  | 'S' => 's' | 'T' => 't' | 'U' => 'u' | 'V' => 'v' | 'W' => 'w' | 'X' => 'x'
  | 'Y' => 'y' | 'Z' => 'z' | d => d

/-- ASCII uppercasing, mirroring Python `str.upper()` on ASCII inputs. -/
def pyUpperChar (c : Char) : Char :=
  match c with
  | 'a' => 'A' | 'b' => 'B' | 'c' => 'C' | 'd' => 'D' | 'e' => 'E' | 'f' => 'F'
  | 'g' => 'G' | 'h' => 'H' | 'i' => 'I' | 'j' => 'J' | 'k' => 'K' | 'l' => 'L'
  | 'm' => 'M' | 'n' => 'N' | 'o' => 'O' | 'p' => 'P' | 'q' => 'Q' | 'r' => 'R'
  | 's' => 'S' | 't' => 'T' | 'u' => 'U' | 'v' => 'V' | 'w' => 'W' | 'x' => 'X'
  | 'y' => 'Y' | 'z' => 'Z' | d => d

def pyLower (l : Str) : Str := l.map pyLowerChar

def pyUpper (l : Str) : Str := l.map pyUpperChar

/-- Tests whether `sub` is a leading substring of `l` (`begins l sub`). -/
def begins : Str → Str → Bool
  | _, [] => true
  | [], _ :: _ => false
  | c :: t, d :: s => c = d && begins t s

/-- Python's substring test `sub in l`. -/
def strContains : Str → Str → Bool
  | [], sub => sub.isEmpty
  | l@(_ :: t), sub => begins l sub || strContains t sub

/-- Anchor a literal pattern fragment: consume `kw` or fail. -/
def matchLit (kw l : Str) : Option Str :=
  if begins l kw then some (l.drop kw.length) else none

/-- Embedding of `re.search` over a hand-specialised matcher: try every start position
left to right (including the end position, as Python does). -/
def reSearch (m : Str → Option α) : Str → Option α
  | [] => m []
  | l@(_ :: rest) =>
    match m l with
    | some a => some a
    | none => reSearch m rest

/-- Worker for `re.findall`: on a hit of length `k` continue after the match,
otherwise advance one position.  Fuel `length + 1` always suffices. -/
def reFindGo (m : Str → Option (Nat × α)) : Nat → Str → List α
  | 0, _ => []
  | _ + 1, [] =>
    match m [] with
    | some (_, a) => [a]
    | none => []
  | n + 1, l@(_ :: rest) =>
    match m l with
    | some (k, a) => a :: reFindGo m n (l.drop (max k 1))
    | none => reFindGo m n rest

/-- Embedding of `re.findall` over a matcher returning (match length, captured value). -/
def reFindAll (m : Str → Option (Nat × α)) (l : Str) : List α :=
  reFindGo m (l.length + 1) l

/-- Worker for Python `str.replace`; the source never passes an empty
pattern, and fuel `length + 1` always suffices. -/
def pyReplaceGo (sub rep : Str) : Nat → Str → Str
  | 0, l => l
  | _ + 1, [] => []
  | n + 1, l@(c :: t) =>
    if begins l sub then rep ++ pyReplaceGo sub rep n (l.drop sub.length)
    else c :: pyReplaceGo sub rep n t

/-- Python `l.replace(sub, rep)` (left-to-right, non-overlapping). -/
def pyReplace (l sub rep : Str) : Str :=
  if sub.isEmpty then l else pyReplaceGo sub rep (l.length + 1) l

/-- Python `str.strip()` (whitespace from both ends). -/
def pyStrip (l : Str) : Str :=
  (((l.dropWhile isPySpace).reverse.dropWhile isPySpace)).reverse

/-- Join with a separator, as `sep.join(parts)` does. -/
def joinStr (sep : Str) : List Str → Str
  | [] => []
  | [p] => p
  | p :: ps => p ++ sep ++ joinStr sep ps

/-- Numeric value of an ASCII digit run (most significant first). -/
def digitsToNat (l : Str) : Nat :=
  l.foldl (fun a c => a * 10 + (c.toNat - 48)) 0

/-- Python decimal printing of an integer, used by the f-strings. -/
def intRepr (i : Int) : Str := (toString i).toList

def natRepr (n : Nat) : Str := (toString n).toList

/-- Python `float(s)` for a `[\d.]+` capture: valid iff at most one dot and at
least one digit; the value is returned as an exact rational.  Python rounds
literals beyond double precision, so theorems about the stored value restrict
literals to at most 15 digits, where an IEEE double represents the integer
exactly and coincides with this rational. -/
def pyFloatQ (l : Str) : Option ℚ :=
  let intPart := l.takeWhile Char.isDigit
  match l.drop intPart.length with
  | [] => if intPart.isEmpty then none else some (digitsToNat intPart)
  | '.' :: frac =>
    if frac.all Char.isDigit && !(intPart.isEmpty && frac.isEmpty) then
      some ((digitsToNat intPart : ℚ) + (digitsToNat frac : ℚ) / (10 : ℚ) ^ frac.length)
    else none
  | _ => none

/-- Index of the last `')'` in a fragment, for the greedy `(.+)\)` tail of
the `ts(...)` pattern. -/
def lastParenIdx : Str → Option Nat
  | [] => none
  | x :: t =>
    match lastParenIdx t with
    | some i => some (i + 1)
    | none => if x = ')' then some 0 else none

/-- One attempt of `ts\(([\w\.\-]+)(?:,\s*(.+))?\)` at the current position;
returns (metric capture, tag capture or `[]` when the optional group is
absent/empty, matching the source's `match.group(2) if match.group(2) else ""`).
The `,`-branch mirrors the greedy `\s*` / `(.+)` backtracking: the group runs
from the end of the whitespace run (backing off one space when the last `')'`
is the very next character) up to the last `')'`. -/
def matchTsAt (l : Str) : Option (Str × Str) :=
  match matchLit (str "ts(") l with
  | none => none
  | some r =>
    let metric := r.takeWhile isMetricChar
    if metric.isEmpty then none
    else
      match r.dropWhile isMetricChar with
      | ')' :: _ => some (metric, [])
      | ',' :: r2 =>
        let w := (r2.takeWhile isPySpace).length
        match lastParenIdx r2 with
        | none => none
        | some p =>
          if p = 0 then none
          else some (metric, (r2.drop (min w (p - 1))).take (p - min w (p - 1)))
      | _ => none

/-- Duration units `[smhd]` accepted by the window patterns. -/
def isDurUnit (c : Char) : Bool := c = 's' || c = 'm' || c = 'h' || c = 'd'

/-- One attempt of `mavg\((\d+[smhd]),\s*ts\(` (the moving-average guard). -/
def matchMavgFullAt (l : Str) : Option Unit :=
  match matchLit (str "mavg(") l with
  | none => none
  | some r =>
    if (r.takeWhile Char.isDigit).isEmpty then none
    else
      match r.dropWhile Char.isDigit with
      | u :: ',' :: r3 =>
        if isDurUnit u && begins (r3.dropWhile isPySpace) (str "ts(") then some ()
        else none
      | _ => none

/-- One attempt of `mavg\((\d+[smhd])` (the moving-average duration capture). -/
def matchMavgDurAt (l : Str) : Option Str :=
  match matchLit (str "mavg(") l with
  | none => none
  | some r =>
    let ds := r.takeWhile Char.isDigit
    if ds.isEmpty then none
    else
      match r.dropWhile Char.isDigit with
      | u :: _ => if isDurUnit u then some (ds ++ [u]) else none
      | [] => none

/-- One attempt of `rate\((\d+[smhd]),\s*ts\(` (the rate duration capture). -/
def matchRateDurAt (l : Str) : Option Str :=
  match matchLit (str "rate(") l with
  | none => none
  | some r =>
    let ds := r.takeWhile Char.isDigit
    if ds.isEmpty then none
    else
      match r.dropWhile Char.isDigit with
      | u :: ',' :: r3 =>
        if isDurUnit u && begins (r3.dropWhile isPySpace) (str "ts(") then some (ds ++ [u])
        else none
      | _ => none

/-- One attempt of `percentile\((\d+)`. -/
def matchPercAt (l : Str) : Option Str :=
  match matchLit (str "percentile(") l with
  | none => none
  | some r =>
    let ds := r.takeWhile Char.isDigit
    if ds.isEmpty then none else some ds

def isQuoteChar (c : Char) : Bool := c = '"' || c = Char.ofNat 39

/-- The `\s*["\']([^"\']+)["\']` tail of the aliasMetric pattern. -/
def matchQuoteGroup (l : Str) : Option Str :=
  match l.dropWhile isPySpace with
  | q :: r2 =>
    if isQuoteChar q then
      let g := r2.takeWhile (fun c => !(isQuoteChar c))
      if g.isEmpty then none
      else
        match r2.dropWhile (fun c => !(isQuoteChar c)) with
        | q2 :: _ => if isQuoteChar q2 then some g else none
        | [] => none
    else none
  | [] => none

/-- Indices of a character's occurrences, used for the greedy `.*,` of the
aliasMetric pattern (the rightmost workable comma wins). -/
def idxsOf (c : Char) (l : Str) : List Nat :=
  (l.enum.filter (fun p => p.2 = c)).map (fun p => p.1)

/-- One attempt of `aliasMetric\(.*,\s*["\']([^"\']+)["\']`. -/
def matchAliasAt (l : Str) : Option Str :=
  match matchLit (str "aliasMetric(") l with
  | none => none
  | some r =>
    ((idxsOf ',' r).reverse).findSome? (fun j => matchQuoteGroup (r.drop (j + 1)))

/-- One attempt of `(\w+)="([^"]+)"` (tag pair capture), with match length. -/
def matchTagAt (l : Str) : Option (Nat × (Str × Str)) :=
  let k := l.takeWhile isWordChar
  if k.isEmpty then none
  else
    match l.dropWhile isWordChar with
    | '=' :: '"' :: r =>
      let v := r.takeWhile (fun c => c ≠ '"')
      if v.isEmpty then none
      else
        match r.dropWhile (fun c => c ≠ '"') with
        | '"' :: _ => some (k.length + 2 + v.length + 1, (k, v))
        | _ => none
    | _ => none

/-- One attempt of `ts\([^)]+\)` (whole-match capture), with match length. -/
def matchTsFindAt (l : Str) : Option (Nat × Str) :=
  match matchLit (str "ts(") l with
  | none => none
  | some r =>
    let body := r.takeWhile (fun c => c ≠ ')')
    if body.isEmpty then none
    else
      match r.dropWhile (fun c => c ≠ ')') with
      | ')' :: _ => some (body.length + 4, str "ts(" ++ body ++ str ")")
      | _ => none

/-- One attempt of `([<>]=?|=)\s*([\d.]+)`, returning (operator text, number
text).  The helper reproduces the backtracking: with the optional `=` the
number must follow, otherwise the bare comparator is retried. -/
def matchNumTail (r : Str) : Option Str :=
  let num := (r.dropWhile isPySpace).takeWhile isDigitDot
  if num.isEmpty then none else some num

def matchThresholdAt (l : Str) : Option (Str × Str) :=
  match l with
  | [] => none
  | c :: r =>
    if c = '<' || c = '>' then
      match r with
      | d :: r2 =>
        if d = '=' then
          match matchNumTail r2 with
          | some num => some ([c, '='], num)
          | none =>
            match matchNumTail r with
            | some num => some ([c], num)
            | none => none
        else
          match matchNumTail r with
          | some num => some ([c], num)
          | none => none
      | [] => none
    else if c = '=' then
      match matchNumTail r with
      | some num => some ([c], num)
      | none => none
    else none

/-- One attempt of `\s+(AND|OR)\s+` (case-insensitive), returning the total
consumed length and the captured operator text in its original case.  `AND`
is tried before `OR`, and each alternative independently requires trailing
whitespace, mirroring the regex backtracking. -/
def sepAfterKw (w1len kwLen : Nat) (kw r2 : Str) : Option (Nat × Str) :=
  let w2 := r2.takeWhile isPySpace
  if w2.isEmpty then none else some (w1len + kwLen + w2.length, kw)

def matchSepAt (l : Str) : Option (Nat × Str) :=
  let w1 := l.takeWhile isPySpace
  if w1.isEmpty then none
  else
    let r := l.drop w1.length
    let tryAnd :=
      match r with
      | a :: n :: d :: r2 =>
        if pyUpperChar a = 'A' && pyUpperChar n = 'N' && pyUpperChar d = 'D' then
          sepAfterKw w1.length 3 [a, n, d] r2
        else none
      | _ => none
    match tryAnd with
    | some x => some x
    | none =>
      match r with
      | o :: rr :: r2 =>
        if pyUpperChar o = 'O' && pyUpperChar rr = 'R' then
          sepAfterKw w1.length 2 [o, rr] r2
        else none
      | _ => none

/-- Worker for `re.split(r'\s+(AND|OR)\s+', ...)`: segments interleaved with
the captured operator tokens, exactly as Python returns them. -/
def splitGo : Nat → Str → Str → List Str
  | 0, acc, l => [acc.reverse ++ l]
  | _ + 1, acc, [] => [acc.reverse]
  | n + 1, acc, l@(c :: rest) =>
    match matchSepAt l with
    | some (k, op) => acc.reverse :: op :: splitGo n [] (l.drop (max k 1))
    | none => splitGo n (c :: acc) rest

def splitAndOr (l : Str) : List Str := splitGo (l.length + 1) [] l

/-! ## QueryTranslator -/

inductive DataSourceType
  | prometheus
  | influxdb
  | elasticsearch
  | cloudwatch
deriving DecidableEq, Repr

def DataSourceType.value : DataSourceType → Str
  | .prometheus => str "prometheus"
  | .influxdb => str "influxdb"
  | .elasticsearch => str "elasticsearch"
  | .cloudwatch => str "cloudwatch"

/-- Python `dict` built from captured pairs (`{k: v for k, v in tag_matches}`):
first-occurrence order, last value wins. -/
def pyDictSet (d : List (Str × Str)) (k v : Str) : List (Str × Str) :=
  if d.any (fun p => p.1 == k) then d.map (fun p => if p.1 == k then (k, v) else p)
  else d ++ [(k, v)]

def pyDict (pairs : List (Str × Str)) : List (Str × Str) :=
  pairs.foldl (fun d kv => pyDictSet d kv.1 kv.2) []

/-- Embedding of `str(float(digits) / 100)` for the percentile branch.  For the two-decimal
values the code produces, Python's shortest-roundtrip float printing is the
exact decimal with trailing zeros dropped (and a forced `.0` for integers). -/
def pyDiv100Repr (n : Nat) : Str :=
  let i := n / 100
  let f := n % 100
  if f = 0 then natRepr i ++ str ".0"
  else if f % 10 = 0 then natRepr i ++ str "." ++ natRepr (f / 10)
  else if f < 10 then natRepr i ++ str ".0" ++ natRepr f
  else natRepr i ++ str "." ++ natRepr f

/-- The `mavg` branch guard: `re.search(r'mavg\((\d+[smhd]),\s*ts\(', wql_lower)`. -/
def mavgTest (wl : Str) : Bool := (reSearch matchMavgFullAt wl).isSome

/-- Wrapper bodies of the aggregation `if/elif` chain in `wql_to_promql`
(lines 134-177).  Each takes the lowercased query (for duration /
parameter extraction) and the current translated selector. -/
def mavgWrap (wl base : Str) : Str :=
  match reSearch matchMavgDurAt wl with
  | some dur => str "avg_over_time(" ++ base ++ str "[" ++ dur ++ str "])"
  | none => base

def rateWrap (wl base : Str) : Str :=
  let dur := (reSearch matchRateDurAt wl).getD (str "5m")
  str "rate(" ++ base ++ str "[" ++ dur ++ str "])"

def percentileWrap (wl base : Str) : Str :=
  match reSearch matchPercAt wl with
  | some ds => str "quantile(" ++ pyDiv100Repr (digitsToNat ds) ++ str ", " ++ base ++ str ")"
  | none => base

def fnWrap (fn : String) (_wl base : Str) : Str := str fn ++ str "(" ++ base ++ str ")"

def derivWrap (_wl base : Str) : Str := str "deriv(" ++ base ++ str "[5m])"

def lastWrap (_wl base : Str) : Str := str "last_over_time(" ++ base ++ str "[5m])"

/-- The aggregation `if/elif` chain of `wql_to_promql`, verbatim branch order. -/
def applyAggregation (wl base : Str) : Str :=
  if mavgTest wl then mavgWrap wl base
  else if strContains wl (str "rate(") then rateWrap wl base
  else if strContains wl (str "percentile(") then percentileWrap wl base
  else if strContains wl (str "avg(") then fnWrap "avg" wl base
  else if strContains wl (str "sum(") then fnWrap "sum" wl base
  else if strContains wl (str "max(") then fnWrap "max" wl base
  else if strContains wl (str "min(") then fnWrap "min" wl base
  else if strContains wl (str "count(") then fnWrap "count" wl base
  else if strContains wl (str "stddev(") then fnWrap "stddev" wl base
  else if strContains wl (str "deriv(") then derivWrap wl base
  else if strContains wl (str "last(") then lastWrap wl base
  else base

/-- The unconditional aliasMetric stage (original-case query). -/
def applyAlias (wql promql1 : Str) : Str :=
  match reSearch matchAliasAt wql with
  | some newName =>
    str "label_replace(" ++ promql1 ++ str ", \"__name__\", \"" ++ newName ++ str "\", \"\", \"\")"
  | none => promql1

/-- Embeds `QueryTranslator.wql_to_promql`. -/
def wqlToPromql (wql : Str) : Str :=
  match reSearch matchTsAt wql with
  | some (metricRaw, tagsStr) =>
    let metric := pyReplace metricRaw (str ".") (str "_")
    let tags := pyDict (reFindAll matchTagAt tagsStr)
    let promql0 :=
      if tags.isEmpty then metric
      else
        metric ++ '\x7b' :: joinStr (str ", ")
          (tags.map fun kv => kv.1 ++ str "=\"" ++ kv.2 ++ str "\"") ++ ['\x7d']
    applyAlias wql (applyAggregation (pyLower wql) promql0)
  | none => str "# TODO: Translate WQL: " ++ wql

/-- Embeds `QueryTranslator.wql_to_influxql`.  The source builds
`SELECT mean("value") FROM ...` and then `str.replace`s the single occurrence
of `mean("value")` according to a case-sensitive keyword chain; since the
aggregate text occurs exactly once (metric and tag captures cannot contain
`(` or `"`), this is embedded as direct selection of the select function. -/
def wqlToInfluxql (wql : Str) : Str :=
  match reSearch matchTsAt wql with
  | some (metric, tagsStr) =>
    let tagMatches := reFindAll matchTagAt tagsStr
    let whereClause :=
      if tagMatches.isEmpty then []
      else
        str " WHERE " ++ joinStr (str " AND ")
          (tagMatches.map fun kv =>
            str "\"" ++ kv.1 ++ str "\"=" ++ Char.ofNat 39 :: kv.2 ++ [Char.ofNat 39])
    let selectFn :=
      if strContains wql (str "avg(") then str "mean"
      else if strContains wql (str "sum(") then str "sum"
      else if strContains wql (str "max(") then str "max"
      else if strContains wql (str "min(") then str "min"
      else str "mean"
    str "SELECT " ++ selectFn ++ str "(\"value\") FROM \"" ++ metric ++ str "\"" ++
      whereClause ++ str " GROUP BY time($__interval) fill(null)"
  | none => str "-- TODO: Translate WQL: " ++ wql

/-- Embeds `QueryTranslator.translate` (renamed: the source name collides with a
Mathlib declaration). -/
def translateQuery (wql : Str) : DataSourceType → Str
  | .prometheus => wqlToPromql wql
  | .influxdb => wqlToInfluxql wql
  | t => str "# Unsupported target: " ++ t.value ++ str ". Original WQL: " ++ wql

/-! ## GrafanaAlertBuilder -/

/-- Python exceptions escaping `build_alert`. -/
inductive PyErr
  | unboundLocalAlertRule
  | valueError
deriving DecidableEq, Repr

/-- An element of the `queries` list built by `_parse_wavefront_condition`:
either a dict `{'query','operator','value'}` or a bare string. -/
inductive QueryItem
  | qdict (query op : Str) (value : ℚ)
  | qstr (s : Str)
deriving DecidableEq, Repr

structure ThresholdInfo where
  operator : Str
  value : ℚ
deriving DecidableEq, Repr

/-- The `operator_map` local to `_parse_wavefront_condition` (no `==`/`!=`). -/
def opMapParse (op : Str) : Str :=
  if op = str ">" then str "gt"
  else if op = str ">=" then str "gte"
  else if op = str "<" then str "lt"
  else if op = str "<=" then str "lte"
  else if op = str "=" then str "eq"
  else str "gt"

/-- Embeds `GrafanaAlertBuilder._map_operator`. -/
def mapOperator (op : Str) : Str :=
  if op = str ">" then str "gt"
  else if op = str ">=" then str "gte"
  else if op = str "<" then str "lt"
  else if op = str "<=" then str "lte"
  else if op = str "=" then str "eq"
  else if op = str "==" then str "eq"
  else if op = str "!=" then str "neq"
  else str "gt"

/-- Body of the per-`ts()` step inside `_parse_wavefront_condition`'s loop. -/
def processTsMatch (part m : Str) : Except PyErr QueryItem :=
  let remaining := pyStrip (pyReplace part m [])
  match reSearch matchThresholdAt remaining with
  | some (op, num) =>
    match pyFloatQ num with
    | some v => .ok (.qdict m op v)
    | none => .error .valueError
  | none => .ok (.qdict m (str ">") 0)

def processTsMatches (part : Str) : List Str → Except PyErr (List QueryItem)
  | [] => .ok []
  | m :: ms =>
    match processTsMatch part m with
    | .error e => .error e
    | .ok q =>
      match processTsMatches part ms with
      | .error e => .error e
      | .ok qs => .ok (q :: qs)

/-- One iteration of the `for part in parts` loop. -/
def processPart (part : Str) : Except PyErr (List QueryItem) :=
  if pyUpper part = str "AND" ∨ pyUpper part = str "OR" then .ok []
  else processTsMatches part (reFindAll matchTsFindAt part)

def processParts : List Str → Except PyErr (List QueryItem)
  | [] => .ok []
  | p :: ps =>
    match processPart p with
    | .error e => .error e
    | .ok qs =>
      match processParts ps with
      | .error e => .error e
      | .ok rest => .ok (qs ++ rest)

/-- Embeds `GrafanaAlertBuilder._parse_wavefront_condition`. -/
def parseWavefrontCondition (condition : Str) :
    Except PyErr (List QueryItem × ThresholdInfo) :=
  match processParts (splitAndOr condition) with
  | .error e => .error e
  | .ok queries =>
    if queries.isEmpty then
      let tsMatches := reFindAll matchTsFindAt condition
      if !tsMatches.isEmpty then
        match reSearch matchThresholdAt condition with
        | some (op, num) =>
          match pyFloatQ num with
          | some v => .ok (tsMatches.map .qstr, ⟨opMapParse op, v⟩)
          | none => .error .valueError
        | none => .ok (tsMatches.map .qstr, ⟨str "gt", 0⟩)
      else if !(pyStrip condition).isEmpty then
        .ok ([.qstr (pyStrip condition)], ⟨str "gt", 0⟩)
      else .ok ([], ⟨str "gt", 0⟩)
    else .ok (queries, ⟨str "gt", 0⟩)

/-- Embeds `GrafanaAlertBuilder._determine_reducer_type`. -/
def determineReducerType (condition : Str) : Str :=
  let cl := pyLower condition
  if strContains cl (str "avg(") || strContains cl (str "mavg(") then str "mean"
  else if strContains cl (str "sum(") then str "sum"
  else if strContains cl (str "max(") then str "max"
  else if strContains cl (str "min(") then str "min"
  else if strContains cl (str "count(") then str "count"
  else if strContains cl (str "stddev(") then str "stdDev"
  else if strContains cl (str "last(") then str "last"
  else if strContains cl (str "median(") then str "median"
  else if strContains cl (str "first(") then str "first"
  else str "last"

/-- Embeds `GrafanaAlertBuilder._extract_logical_operator` (walks the split parts
counting operator tokens; default `&&`).  Its results feed only the math
nodes of the multi-query branch, which are discarded by the raise modelled
in `buildAlert`, but it is embedded for completeness. -/
def extractLogicalGo (position : Nat) : List Str → Nat → Str
  | [], _ => str "&&"
  | p :: ps, cnt =>
    if pyUpper p = str "AND" ∨ pyUpper p = str "OR" then
      if cnt = position - 1 then
        if pyUpper p = str "AND" then str "&&" else str "||"
      else extractLogicalGo position ps (cnt + 1)
    else extractLogicalGo position ps cnt

def extractLogicalOperator (condition : Str) (position : Nat) : Str :=
  extractLogicalGo position (splitAndOr condition) 0

/-- Embeds `GrafanaAlertBuilder._convert_duration`. -/
def convertDuration (minutes : Int) : Str :=
  if minutes < 60 then intRepr minutes ++ str "m"
  else if minutes < 1440 then intRepr (Int.fdiv minutes 60) ++ str "h"
  else intRepr (Int.fdiv minutes 1440) ++ str "d"

/-! ## The alert data model -/

/-- The Wavefront record fields `build_alert` can see.  `status`,
`alertSources` and `conditions` are part of the upstream record shape but —
as proved below — are never consulted by the code. -/
inductive StatusField
  | strVal (s : Str)
  | listVal (l : List Str)
  | absent
deriving DecidableEq, Repr

structure WfAlert where
  wfId : Option Str
  name : Option Str
  minutes : Option Int
  additionalInformation : Option Str
  tags : Option (List Str)
  severity : Option Str
  status : StatusField
  condition : Option Str
  alertSources : List (Str × Str)
  conditions : List (Str × Str)
deriving DecidableEq, Repr

/-- The kind-specific part of each element of the rule's `data` array.  The
constant boilerplate of the serialized dicts (`"instant": True`,
`"intervalMs": 1000`, `"maxDataPoints": 43200`, the placeholder
`conditions` list of the first reduce node, `"reducer": "last"` inside
threshold conditions) is fixed text carrying no per-alert information; the
`fullModel` flag records whether a node carried that extra boilerplate
(true for the A/B/C trio, false for chained nodes). -/
inductive NodeModel
  | query (dsType dsUid : Str) (expr queryText : Str) (refId : Str)
  | reduce (expression : Str) (reducer : Str) (refId : Str) (fullModel : Bool)
  | threshold (evaluatorParams : List ℚ) (evaluatorType : Str)
      (expression : Str) (refId : Str) (fullModel : Bool)
  | math (expression : Str) (refId : Str)
deriving DecidableEq, Repr

/-- One element of the `data` array (`relativeTimeRange` from/to kept). -/
structure DataNode where
  refId : Str
  rtrFrom : Int
  rtrTo : Int
  datasourceUid : Str
  model : NodeModel
deriving DecidableEq, Repr

structure RuleAnnotations where
  description : Str
  runbookUrl : Str
  summary : Str
deriving DecidableEq, Repr

/-- The rule object returned by `build_alert` (migrator revision). -/
structure AlertRule where
  uid : Str
  title : Str
  condition : Str
  data : List DataNode
  ruleGroup : Str
  folderUID : Str
  orgID : Int
  noDataState : Str
  execErrState : Str
  forDuration : Str
  annotations : RuleAnnotations
  labels : List (Str × Str)
  isPaused : Bool
deriving DecidableEq, Repr

structure GrafanaAlertBuilder where
  datasourceType : DataSourceType
  datasourceUid : Str
deriving DecidableEq, Repr

/-- Step-A query node (lines 493-512). -/
def mkQueryNodeA (b : GrafanaAlertBuilder) (translated : Str) : DataNode :=
  { refId := str "A"
    rtrFrom := 600
    rtrTo := 0
    datasourceUid := b.datasourceUid
    model := .query b.datasourceType.value b.datasourceUid
      (if b.datasourceType = .prometheus then translated else [])
      (if b.datasourceType = .influxdb then translated else [])
      (str "A") }

/-- Step-B reduce node (lines 515-553). -/
def mkReduceNodeB (reducerType : Str) : DataNode :=
  { refId := str "B"
    rtrFrom := 600
    rtrTo := 0
    datasourceUid := str "__expr__"
    model := .reduce (str "A") reducerType (str "B") true }

/-- Step-C threshold node (lines 556-593). -/
def mkThresholdNodeC (ti : ThresholdInfo) : DataNode :=
  { refId := str "C"
    rtrFrom := 600
    rtrTo := 0
    datasourceUid := str "__expr__"
    model := .threshold [ti.value] ti.operator (str "B") (str "C") true }

/-- The `labels` dict: `labels[f'tag_{tag}'] = tag` for each tag, guarded by
`'tags' in wf_alert`. -/
def buildLabels (wf : WfAlert) : List (Str × Str) :=
  match wf.tags with
  | none => []
  | some ts => ts.foldl (fun d tag => pyDictSet d (str "tag_" ++ tag) tag) []

/-- The `alert_rule` dict literal of lines 697-715 plus the tag loop. -/
def mkAlertRule (wf : WfAlert) (folderUid ruleGroup : Str)
    (data : List DataNode) : AlertRule :=
  { uid := (str "wf_" ++ wf.wfId.getD []).take 40
    title := wf.name.getD (str "Migrated Alert")
    condition := str "C"
    data := data
    ruleGroup := ruleGroup
    folderUID := folderUid
    orgID := 1
    noDataState := str "NoData"
    execErrState := str "Error"
    forDuration := convertDuration (wf.minutes.getD 5)
    annotations :=
      { description := wf.additionalInformation.getD []
        runbookUrl := []
        summary := wf.name.getD [] }
    labels := buildLabels wf
    isPaused := false }

/-- Embeds `GrafanaAlertBuilder.build_alert` (lines 466-722).  The method reads only
`condition`, `name`, `minutes`, `additionalInformation`, `id` and `tags` from
the record.  When the parsed `queries` list has more than one element, the
multi-query branch appends further query/reduce/threshold/math nodes to the
local `data` list and then executes `alert_rule["condition"] = current_ref`
(line 694) *before* the local `alert_rule` is first assigned (line 697), so
the call raises `UnboundLocalError` and nothing is returned; the nodes built
inside that loop are therefore unobservable and the branch is embedded as the
error outcome.  The builder object is returned unchanged alongside the
result, mirroring that the method never writes to `self`. -/
def buildAlert (b : GrafanaAlertBuilder) (wf : WfAlert)
    (folderUid ruleGroup : Str) : Except PyErr AlertRule × GrafanaAlertBuilder :=
  let condition := wf.condition.getD []
  let res : Except PyErr AlertRule :=
    match parseWavefrontCondition condition with
    | .error e => .error e
    | .ok (queries, thresholdInfo0) =>
      let reducerType := determineReducerType condition
      match queries with
      | [] => .ok (mkAlertRule wf folderUid ruleGroup [])
      | q0 :: restQ =>
        let pq : Str × ThresholdInfo :=
          match q0 with
          | .qdict q op v => (q, ⟨mapOperator op, v⟩)
          | .qstr s => (s, thresholdInfo0)
        let translated := translateQuery pq.1 b.datasourceType
        let data := [mkQueryNodeA b translated, mkReduceNodeB reducerType,
          mkThresholdNodeC pq.2]
        match restQ with
        | [] => .ok (mkAlertRule wf folderUid ruleGroup data)
        | _ :: _ => .error .unboundLocalAlertRule
  (res, b)

/-! ## Reference-integrity instrumentation (for the graph invariants) -/

/-- RefIds referenced by a math expression (`$X` tokens). -/
def matchDollarRefAt (l : Str) : Option (Nat × Str) :=
  match l with
  | '$' :: r =>
    let nm := r.takeWhile Char.isAlpha
    if nm.isEmpty then none else some (nm.length + 1, nm)
  | _ => none

def mathRefs (e : Str) : List Str := reFindAll matchDollarRefAt e

/-- Upstream refIds a node's model mentions. -/
def nodeUpstream : NodeModel → List Str
  | .query _ _ _ _ _ => []
  | .reduce e _ _ _ => [e]
  | .threshold _ _ e _ _ => [e]
  | .math e _ => mathRefs e

/-- Every node only references refIds of nodes appearing earlier. -/
def wellChained (seen : List Str) : List DataNode → Bool
  | [] => true
  | n :: rest =>
    (nodeUpstream n.model).all (fun r => seen.contains r) && wellChained (n.refId :: seen) rest

/-! ## Specification-side constructions used by the theorems -/

/-- Characters allowed inside one dot-free metric-path segment. -/
def isSegChar (c : Char) : Bool := isWordChar c || c = '-'

/-- Dot-joined metric path built from segments (input construction). -/
def joinDots (segs : List Str) : Str := joinStr (str ".") segs

/-- The spec's fixed-priority keyword table: the translator scans for these
tests in order and applies exactly the first matching wrapper. -/
structure AggRule where
  test : Str → Bool
  wrap : Str → Str → Str

def priorityRules : List AggRule :=
  [ ⟨mavgTest, mavgWrap⟩,
    ⟨fun wl => strContains wl (str "rate("), rateWrap⟩,
    ⟨fun wl => strContains wl (str "percentile("), percentileWrap⟩,
    ⟨fun wl => strContains wl (str "avg("), fnWrap "avg"⟩,
    ⟨fun wl => strContains wl (str "sum("), fnWrap "sum"⟩,
    ⟨fun wl => strContains wl (str "max("), fnWrap "max"⟩,
    ⟨fun wl => strContains wl (str "min("), fnWrap "min"⟩,
    ⟨fun wl => strContains wl (str "count("), fnWrap "count"⟩,
    ⟨fun wl => strContains wl (str "stddev("), fnWrap "stddev"⟩,
    ⟨fun wl => strContains wl (str "deriv("), derivWrap⟩,
    ⟨fun wl => strContains wl (str "last("), lastWrap⟩ ]

/-- Modelled from the spec: "only the first keyword matched in this priority
order is applied". -/
def firstMatchWrap (rules : List AggRule) (wl base : Str) : Str :=
  match rules.find? (fun r => r.test wl) with
  | some r => r.wrap wl base
  | none => base

/-! ## Sample records for the concrete evaluations -/

def sampleBuilder : GrafanaAlertBuilder := ⟨.prometheus, str "prom-uid"⟩

/-- An administratively silenced record with an otherwise ordinary condition. -/
def snoozedAlert : WfAlert :=
  ⟨some (str "1001"), some (str "High CPU"), some 5, some (str "info"),
   some [str "prod"], some (str "SEVERE"), .strVal (str "SNOOZED"),
   some (str "ts(cpu.usage) > 80"), [], []⟩

/-- A structured-shape record: named sub-queries plus a severity map and no
free-text `condition` string. -/
def structuredAlert : WfAlert :=
  ⟨some (str "1002"), some (str "Structured"), some 5, none, none, none,
   .absent, none, [(str "X", str "ts(m)")],
   [(str "severe", str "$\x7bX\x7d > 10")]⟩

/-- A record whose condition string parses to no sub-query at all. -/
def emptyCondAlert : WfAlert :=
  ⟨some (str "1003"), some (str "Empty"), some 5, none, none, none,
   .absent, some [], [], []⟩

/-- A record whose free-text condition yields two sub-query/threshold pairs. -/
def multiCondAlert : WfAlert :=
  ⟨some (str "1004"), some (str "Multi"), some 90, none, none, none,
   .absent, some (str "ts(cpu.a) > 1 AND ts(cpu.b) < 2"), [], []⟩

/-- A record with a single-selector single-threshold condition (used to
instantiate the graph-shape theorem). -/
def singleCondAlert : WfAlert :=
  ⟨some (str "1005"), some (str "Single"), some 10, none, none, none,
   .absent, some (str "ts(disk.free) < 20"), [], []⟩

/-- A record whose condition holds one selector and one comparator+literal,
but with an `AND` keyword standing between them. -/
def andCexAlert : WfAlert :=
  ⟨some (str "1006"), some (str "Separated"), some 5, none, none, none,
   .absent, some (str "ts(m) AND < 5"), [], []⟩

def fallbackRule : AlertRule := mkAlertRule singleCondAlert [] [] []

def singleRule : AlertRule :=
  ((buildAlert sampleBuilder singleCondAlert (str "fold") (str "grp")).1).toOption.getD fallbackRule

/-- In `'t' :: 's' :: '(' :: rest` with no `'('` inside `rest`, the only
character standing immediately before a `'('` is the `'s'`. -/
def ParenOnlyAfterS (l : Str) : Prop :=
  ∀ u (c : Char) v, l = u ++ c :: '(' :: v → c = 's'

/-- The comparator tokens of the canonical `selector op literal` family. -/
def opList : List Str := [str "<", str ">", str "<=", str ">=", str "="]

/-- Canonical single-selector single-threshold free-text condition: the
comparator and integer literal follow the bare selector, with arbitrary
(possibly empty) whitespace runs on both sides of the comparator. -/
def famCond (path ws1 op ws2 digits : Str) : Str :=
  str "ts(" ++ path ++ str ")" ++ ws1 ++ op ++ ws2 ++ digits

/-! ## String-scanning lemmas -/

theorem begins_iff (l sub : Str) : begins l sub = true ↔ sub <+: l := by
  induction l generalizing sub with
  | nil =>
    cases sub with
    | nil => simp [begins]
    | cons d s =>
      simp only [begins, Bool.false_eq_true, false_iff]
      rintro ⟨u, hu⟩
      simp at hu
  | cons c t ih =>
    cases sub with
    | nil =>
      simp only [begins, true_iff]
      exact ⟨c :: t, rfl⟩
    | cons d s =>
      simp only [begins, Bool.and_eq_true, decide_eq_true_eq, ih]
      constructor
      · rintro ⟨rfl, u, hu⟩
        exact ⟨u, by simp [hu]⟩
      · rintro ⟨u, hu⟩
        injection hu with h1 h2
        exact ⟨h1.symm, ⟨u, h2⟩⟩

theorem strContains_iff (l sub : Str) : strContains l sub = true ↔ sub <:+: l := by
  induction l with
  | nil =>
    simp only [strContains, List.isEmpty_iff]
    constructor
    · rintro rfl; exact ⟨[], [], rfl⟩
    · rintro ⟨s, t, h⟩
      have := congrArg List.length h
      simp at this
      exact this.2.1
  | cons c t ih =>
    simp only [strContains, Bool.or_eq_true, begins_iff, ih]
    constructor
    · rintro (⟨u, hu⟩ | ⟨s, u, hu⟩)
      · exact ⟨[], u, by simp [hu]⟩
      · exact ⟨c :: s, u, by simp [hu]⟩
    · rintro ⟨s, u, hu⟩
      cases s with
      | nil => left; exact ⟨u, by simpa using hu⟩
      | cons x xs =>
        right
        injection hu with h1 h2
        exact ⟨xs, u, h2⟩

theorem begins_append (sub t : Str) : begins (sub ++ t) sub = true :=
  (begins_iff _ _).2 ⟨t, rfl⟩

theorem matchLit_self (kw r : Str) : matchLit kw (kw ++ r) = some r := by
  unfold matchLit
  rw [begins_append]
  simp

theorem matchLit_some {kw l r : Str} (h : matchLit kw l = some r) : l = kw ++ r := by
  unfold matchLit at h
  by_cases hb : begins l kw = true
  · rw [hb] at h
    simp at h
    rcases (begins_iff l kw).1 hb with ⟨u, hu⟩
    subst h
    rw [← hu, List.drop_left]
  · simp [hb] at h

theorem takeWhile_append_cons (p : Char → Bool) (xs : Str) (y : Char) (ys : Str)
    (hx : ∀ c ∈ xs, p c = true) (hy : p y = false) :
    (xs ++ y :: ys).takeWhile p = xs := by
  induction xs with
  | nil => simp [List.takeWhile, hy]
  | cons c t ih =>
    have hc := hx c (by simp)
    simp only [List.cons_append, List.takeWhile, hc, List.append_eq]
    rw [ih (fun c hc => hx c (by simp [hc]))]

theorem dropWhile_append_cons (p : Char → Bool) (xs : Str) (y : Char) (ys : Str)
    (hx : ∀ c ∈ xs, p c = true) (hy : p y = false) :
    (xs ++ y :: ys).dropWhile p = y :: ys := by
  induction xs with
  | nil => simp [List.dropWhile, hy]
  | cons c t ih =>
    have hc := hx c (by simp)
    simp only [List.cons_append, List.dropWhile, hc, List.append_eq]
    exact ih (fun c hc => hx c (by simp [hc]))

theorem takeWhile_all (p : Char → Bool) (xs : Str) (hx : ∀ c ∈ xs, p c = true) :
    xs.takeWhile p = xs := by
  induction xs with
  | nil => rfl
  | cons c t ih =>
    have hc := hx c (by simp)
    simp only [List.takeWhile, hc]
    rw [ih (fun c hc => hx c (by simp [hc]))]

theorem dropWhile_cons_neg (p : Char → Bool) (c : Char) (t : Str) (hc : p c = false) :
    (c :: t).dropWhile p = c :: t := by
  simp [List.dropWhile, hc]

theorem reSearch_eq_none {α : Type} {m : Str → Option α} (l : Str)
    (h : ∀ t, t <:+ l → m t = none) : reSearch m l = none := by
  induction l with
  | nil => simpa [reSearch] using h [] ⟨[], rfl⟩
  | cons c rest ih =>
    have h0 : m (c :: rest) = none := h _ ⟨[], rfl⟩
    simp only [reSearch, h0]
    exact ih (fun t ht => h t (ht.trans ⟨[c], rfl⟩))

theorem reFindGo_eq_nil {α : Type} {m : Str → Option (Nat × α)} (l : Str)
    (h : ∀ t, t <:+ l → m t = none) : ∀ n, reFindGo m n l = [] := by
  induction l with
  | nil =>
    intro n
    cases n with
    | zero => rfl
    | succ k => simp [reFindGo, h [] ⟨[], rfl⟩]
  | cons c rest ih =>
    intro n
    cases n with
    | zero => rfl
    | succ k =>
      have h0 : m (c :: rest) = none := h _ ⟨[], rfl⟩
      simp only [reFindGo, h0]
      exact ih (fun t ht => h t (ht.trans ⟨[c], rfl⟩)) k

theorem pyReplaceGo_no_occur {sub rep : Str} (l : Str)
    (h : ∀ t, t <:+ l → begins t sub = false) : ∀ n, pyReplaceGo sub rep n l = l := by
  induction l with
  | nil => intro n; cases n <;> rfl
  | cons c rest ih =>
    intro n
    cases n with
    | zero => rfl
    | succ k =>
      have h0 : begins (c :: rest) sub = false := h _ ⟨[], rfl⟩
      simp only [pyReplaceGo, h0]
      simp only [Bool.false_eq_true, if_false]
      rw [ih (fun t ht => h t (ht.trans ⟨[c], rfl⟩)) k]

theorem suffix_append_cases {t a b : Str} (h : t <:+ a ++ b) :
    t <:+ b ∨ ∃ s, s <:+ a ∧ s ≠ [] ∧ t = s ++ b := by
  induction a with
  | nil => left; simpa using h
  | cons c a' ih =>
    rcases (List.suffix_cons_iff).1 h with h1 | h2
    · right
      exact ⟨c :: a', ⟨[], rfl⟩, by simp, h1⟩
    · rcases ih h2 with h3 | ⟨s, hs, hne, rfl⟩
      · left; exact h3
      · right
        exact ⟨s, hs.trans ⟨[c], rfl⟩, hne, rfl⟩

theorem paren_after_s {rest : Str} (hni : '(' ∉ rest) :
    ParenOnlyAfterS ('t' :: 's' :: '(' :: rest) := by
  intro u c v h
  match u with
  | [] =>
    injection h with h1 h2
    injection h2 with h3 h4
    exact absurd h3.symm (by decide)
  | [x] =>
    injection h with h1 h2
    injection h2 with h3 h4
    exact h3.symm
  | x :: y :: u' =>
    injection h with h1 h2
    injection h2 with h3 h4
    exfalso
    apply hni
    cases u' with
    | nil =>
      injection h4 with h5 h6
      rw [h6]; simp
    | cons w u'' =>
      injection h4 with h5 h6
      rw [h6]; simp

theorem paren_mid_elim {l : Str} (H : ParenOnlyAfterS l) {a : Str} {c : Char}
    {b : Str} (hc : c ≠ 's') (h : (a ++ c :: '(' :: b) <:+: l) : False := by
  rcases h with ⟨p, q, hpq⟩
  exact hc (H (p ++ a) c (b ++ q) (by rw [← hpq]; simp))

theorem noKw {l : Str} (H : ParenOnlyAfterS l) (a : Str) (c : Char) (b : Str)
    (hc : c ≠ 's') : strContains l (a ++ c :: '(' :: b) = false := by
  rw [← Bool.not_eq_true, strContains_iff]
  exact fun h => paren_mid_elim H hc h

theorem matchMavgFullAt_shape {t : Str} {x : Unit} (h : matchMavgFullAt t = some x) :
    ∃ r, t = str "mavg(" ++ r := by
  unfold matchMavgFullAt at h
  cases hm : matchLit (str "mavg(") t with
  | none => rw [hm] at h; simp at h
  | some r => exact ⟨r, matchLit_some hm⟩

theorem matchAliasAt_shape {t : Str} {x : Str} (h : matchAliasAt t = some x) :
    ∃ r, t = str "aliasMetric(" ++ r := by
  unfold matchAliasAt at h
  cases hm : matchLit (str "aliasMetric(") t with
  | none => rw [hm] at h; simp at h
  | some r => exact ⟨r, matchLit_some hm⟩

theorem matchTsFindAt_shape {t : Str} {x : Nat × Str} (h : matchTsFindAt t = some x) :
    ∃ r, t = str "ts(" ++ r := by
  unfold matchTsFindAt at h
  cases hm : matchLit (str "ts(") t with
  | none => rw [hm] at h; simp at h
  | some r => exact ⟨r, matchLit_some hm⟩

theorem mavgSearch_none {l : Str} (H : ParenOnlyAfterS l) :
    reSearch matchMavgFullAt l = none := by
  apply reSearch_eq_none
  intro t ht
  cases hm : matchMavgFullAt t with
  | none => rfl
  | some x =>
    exfalso
    rcases matchMavgFullAt_shape hm with ⟨r, rfl⟩
    rcases ht with ⟨u, hu⟩
    refine paren_mid_elim H (c := 'g') (a := ['m', 'a', 'v']) (b := r) (by decide)
      ⟨u, [], ?_⟩
    rw [← hu]
    simp only [show str "mavg(" = ['m', 'a', 'v', 'g', '('] from rfl]
    simp

theorem aliasSearch_none {l : Str} (H : ParenOnlyAfterS l) :
    reSearch matchAliasAt l = none := by
  apply reSearch_eq_none
  intro t ht
  cases hm : matchAliasAt t with
  | none => rfl
  | some x =>
    exfalso
    rcases matchAliasAt_shape hm with ⟨r, rfl⟩
    rcases ht with ⟨u, hu⟩
    refine paren_mid_elim H (c := 'c')
      (a := ['a', 'l', 'i', 'a', 's', 'M', 'e', 't', 'r', 'i']) (b := r) (by decide)
      ⟨u, [], ?_⟩
    rw [← hu]
    simp only [show str "aliasMetric(" =
      ['a', 'l', 'i', 'a', 's', 'M', 'e', 't', 'r', 'i', 'c', '('] from rfl]
    simp

theorem tsFind_none {l : Str} (hl : '(' ∉ l) : ∀ n, reFindGo matchTsFindAt n l = [] := by
  apply reFindGo_eq_nil
  intro t ht
  cases hm : matchTsFindAt t with
  | none => rfl
  | some x =>
    exfalso
    rcases matchTsFindAt_shape hm with ⟨r, rfl⟩
    apply hl
    apply ht.subset
    simp only [show str "ts(" = ['t', 's', '('] from rfl]
    simp

theorem pyLowerChar_ne_paren {c : Char} (h : pyLowerChar c = '(') : c = '(' := by
  unfold pyLowerChar at h
  split at h <;> first | exact h | exact absurd h (by decide)

theorem pyUpperChar_eq_A {c : Char} (h : pyUpperChar c = 'A') : c = 'a' ∨ c = 'A' := by
  unfold pyUpperChar at h
  split at h <;> simp_all

theorem pyUpperChar_eq_O {c : Char} (h : pyUpperChar c = 'O') : c = 'o' ∨ c = 'O' := by
  unfold pyUpperChar at h
  split at h <;> simp_all

theorem isMetricChar_not_space {c : Char} (h : isMetricChar c = true) :
    isPySpace c = false := by
  cases hs : isPySpace c with
  | false => rfl
  | true =>
    exfalso
    simp only [isPySpace, Bool.or_eq_true, decide_eq_true_eq] at hs
    rcases hs with ((((rfl | rfl) | rfl) | rfl) | rfl) | rfl <;> exact absurd h (by decide)

theorem isDigit_not_space {c : Char} (h : c.isDigit = true) : isPySpace c = false := by
  cases hs : isPySpace c with
  | false => rfl
  | true =>
    exfalso
    simp only [isPySpace, Bool.or_eq_true, decide_eq_true_eq] at hs
    rcases hs with ((((rfl | rfl) | rfl) | rfl) | rfl) | rfl <;> exact absurd h (by decide)

theorem isDigit_upper_ne_A {c : Char} (h : c.isDigit = true) : pyUpperChar c ≠ 'A' := by
  intro hA
  rcases pyUpperChar_eq_A hA with rfl | rfl <;> exact absurd h (by decide)

theorem isDigit_upper_ne_O {c : Char} (h : c.isDigit = true) : pyUpperChar c ≠ 'O' := by
  intro hO
  rcases pyUpperChar_eq_O hO with rfl | rfl <;> exact absurd h (by decide)

theorem matchSepAt_nonws_head {c : Char} (t : Str) (hc : isPySpace c = false) :
    matchSepAt (c :: t) = none := by
  unfold matchSepAt
  simp [List.takeWhile, hc]

/-- A separator attempt fails when a (possibly empty) whitespace run is
followed by a character that uppercases to neither `A` nor `O`. -/
theorem matchSepAt_ws_block {u : Str} (hu : ∀ c ∈ u, isPySpace c = true)
    {d : Char} (v : Str) (hd : isPySpace d = false)
    (hA : pyUpperChar d ≠ 'A') (hO : pyUpperChar d ≠ 'O') :
    matchSepAt (u ++ d :: v) = none := by
  cases u with
  | nil => exact matchSepAt_nonws_head v hd
  | cons x xs =>
    have htw : ((x :: xs) ++ d :: v).takeWhile isPySpace = x :: xs :=
      takeWhile_append_cons isPySpace (x :: xs) d v hu hd
    have hdr : ((x :: xs) ++ d :: v).drop (x :: xs).length = d :: v :=
      List.drop_left _ _
    unfold matchSepAt
    simp only [List.cons_append] at htw hdr ⊢
    rw [htw]
    simp only [List.isEmpty_cons, Bool.false_eq_true, if_false]
    rw [hdr]
    rcases v with _ | ⟨y, _ | ⟨z, v'⟩⟩ <;> simp [hA, hO]

theorem splitGo_all_nonsep (l : Str) (h : ∀ t, t <:+ l → matchSepAt t = none) :
    ∀ n acc, l.length ≤ n → splitGo n acc l = [acc.reverse ++ l] := by
  induction l with
  | nil =>
    intro n acc hn
    cases n with
    | zero => rfl
    | succ k => simp [splitGo]
  | cons c rest ih =>
    intro n acc hn
    cases n with
    | zero => simp at hn
    | succ k =>
      have h0 : matchSepAt (c :: rest) = none := h _ ⟨[], rfl⟩
      simp only [splitGo, h0]
      rw [ih (fun t ht => h t (ht.trans ⟨[c], rfl⟩)) k (c :: acc)
        (by simpa using Nat.lt_succ_iff.mp (Nat.lt_of_lt_of_le (Nat.lt_succ_self _) hn))]
      simp

theorem splitAndOr_single (l : Str) (h : ∀ t, t <:+ l → matchSepAt t = none) :
    splitAndOr l = [l] := by
  unfold splitAndOr
  rw [splitGo_all_nonsep l h (l.length + 1) [] (by omega)]
  simp

theorem famCond_eq (path ws1 op ws2 digits : Str) :
    famCond path ws1 op ws2 digits =
      't' :: 's' :: '(' :: (path ++ ')' :: (ws1 ++ (op ++ (ws2 ++ digits)))) := by
  simp only [famCond, List.append_assoc]
  rfl

theorem matchSepAt_nil : matchSepAt [] = none := rfl

theorem op_chars_nonws {op : Str} (hop : op ∈ opList) :
    ∀ c ∈ op, isPySpace c = false := by
  simp only [opList, List.mem_cons, List.not_mem_nil, or_false] at hop
  rcases hop with rfl | rfl | rfl | rfl | rfl <;> decide

theorem op_chars_ne_paren {op : Str} (hop : op ∈ opList) : ∀ c ∈ op, c ≠ '(' := by
  simp only [opList, List.mem_cons, List.not_mem_nil, or_false] at hop
  rcases hop with rfl | rfl | rfl | rfl | rfl <;> decide

theorem isDigit_ne_paren {c : Char} (h : c.isDigit = true) : c ≠ '(' := by
  rintro rfl; exact absurd h (by decide)

theorem isDigit_ne_eq {c : Char} (h : c.isDigit = true) : c ≠ '=' := by
  rintro rfl; exact absurd h (by decide)

theorem isPySpace_ne_paren {c : Char} (h : isPySpace c = true) : c ≠ '(' := by
  rintro rfl; exact absurd h (by decide)

theorem isPySpace_ne_eq {c : Char} (h : isPySpace c = true) : c ≠ '=' := by
  rintro rfl; exact absurd h (by decide)

theorem op_upper_ne {op : Str} (hop : op ∈ opList) :
    ∀ c ∈ op, pyUpperChar c ≠ 'A' ∧ pyUpperChar c ≠ 'O' := by
  simp only [opList, List.mem_cons, List.not_mem_nil, or_false] at hop
  rcases hop with rfl | rfl | rfl | rfl | rfl <;> decide

theorem dropWhile_append_all (p : Char → Bool) (xs l : Str)
    (hx : ∀ c ∈ xs, p c = true) :
    (xs ++ l).dropWhile p = l.dropWhile p := by
  induction xs with
  | nil => rfl
  | cons c t ih =>
    have hc := hx c (by simp)
    simp only [List.cons_append, List.dropWhile, hc]
    exact ih (fun c hc => hx c (by simp [hc]))

theorem isMetricChar_ne_rparen {c : Char} (h : isMetricChar c = true) : c ≠ ')' := by
  rintro rfl; exact absurd h (by decide)

theorem isMetricChar_ne_paren {c : Char} (h : isMetricChar c = true) : c ≠ '(' := by
  rintro rfl; exact absurd h (by decide)

theorem noSep_fam {path ws1 op ws2 digits : Str}
    (hpath : ∀ c ∈ path, isMetricChar c = true)
    (hws1 : ∀ c ∈ ws1, isPySpace c = true) (hop : op ∈ opList)
    (hws2 : ∀ c ∈ ws2, isPySpace c = true)
    (hdig : digits ≠ []) (hdigd : ∀ c ∈ digits, c.isDigit = true) :
    ∀ t, t <:+ ('t' :: 's' :: '(' :: (path ++ ')' :: (ws1 ++ (op ++ (ws2 ++ digits))))) →
      matchSepAt t = none := by
  intro t ht
  have hAB : 't' :: 's' :: '(' :: (path ++ ')' :: (ws1 ++ (op ++ (ws2 ++ digits)))) =
      ('t' :: 's' :: '(' :: (path ++ [')'])) ++ (ws1 ++ (op ++ (ws2 ++ digits))) := by
    simp
  rw [hAB] at ht
  have hAnonws : ∀ c ∈ 't' :: 's' :: '(' :: (path ++ [')']), isPySpace c = false := by
    intro c hc
    simp only [List.mem_cons, List.mem_append, List.mem_singleton,
      List.not_mem_nil, or_false] at hc
    rcases hc with rfl | rfl | rfl | hc | rfl
    · decide
    · decide
    · decide
    · exact isMetricChar_not_space (hpath c hc)
    · decide
  have hopne : op ≠ [] := by
    simp only [opList, List.mem_cons, List.not_mem_nil, or_false] at hop
    rcases hop with rfl | rfl | rfl | rfl | rfl <;> simp [str]
  obtain ⟨oc, ot, hopc⟩ : ∃ oc ot, op = oc :: ot := by
    cases op with
    | nil => exact absurd rfl hopne
    | cons oc ot => exact ⟨oc, ot, rfl⟩
  obtain ⟨d0, ds, hdc⟩ : ∃ d0 ds, digits = d0 :: ds := by
    cases digits with
    | nil => exact absurd rfl hdig
    | cons d0 ds => exact ⟨d0, ds, rfl⟩
  rcases suffix_append_cases ht with hB | ⟨s, hsA, hne, rfl⟩
  · -- inside the tail after the selector
    rcases suffix_append_cases hB with hC | ⟨s, hsW1, hne, rfl⟩
    · -- inside op ++ (ws2 ++ digits)
      rcases suffix_append_cases hC with hD | ⟨s, hsOp, hne, rfl⟩
      · -- inside ws2 ++ digits
        rcases suffix_append_cases hD with hE | ⟨s, hsW2, hne, rfl⟩
        · -- t a suffix of digits
          rcases t with _ | ⟨c, t'⟩
          · exact matchSepAt_nil
          · exact matchSepAt_nonws_head _
              (isDigit_not_space (hdigd c (hE.subset (by simp))))
        · -- t = (nonempty whitespace suffix of ws2) ++ digits
          rw [hdc]
          exact matchSepAt_ws_block (fun c hc => hws2 c (hsW2.subset hc)) ds
            (isDigit_not_space (hdigd d0 (by rw [hdc]; simp)))
            (isDigit_upper_ne_A (hdigd d0 (by rw [hdc]; simp)))
            (isDigit_upper_ne_O (hdigd d0 (by rw [hdc]; simp)))
      · -- t = (nonempty suffix of op) ++ (ws2 ++ digits)
        rcases s with _ | ⟨c, s'⟩
        · exact absurd rfl hne
        · exact matchSepAt_nonws_head _
            (op_chars_nonws hop c (hsOp.subset (by simp)))
    · -- t = (nonempty whitespace suffix of ws1) ++ (op ++ (ws2 ++ digits))
      rw [hopc, show s ++ ((oc :: ot) ++ (ws2 ++ digits)) =
        s ++ oc :: (ot ++ (ws2 ++ digits)) by simp]
      exact matchSepAt_ws_block (fun c hc => hws1 c (hsW1.subset hc)) _
        (op_chars_nonws hop oc (by rw [hopc]; simp))
        ((op_upper_ne hop oc (by rw [hopc]; simp)).1)
        ((op_upper_ne hop oc (by rw [hopc]; simp)).2)
  · -- t = (nonempty suffix of the selector) ++ tail
    rcases s with _ | ⟨c, s'⟩
    · exact absurd rfl hne
    · exact matchSepAt_nonws_head _ (hAnonws c (hsA.subset (by simp)))

theorem matchTsFindAt_pos (path rest2 : Str) (hne : path ≠ [])
    (hpath : ∀ c ∈ path, isMetricChar c = true) :
    matchTsFindAt ('t' :: 's' :: '(' :: (path ++ ')' :: rest2)) =
      some (path.length + 4, str "ts(" ++ path ++ str ")") := by
  have h1 : 't' :: 's' :: '(' :: (path ++ ')' :: rest2) =
      str "ts(" ++ (path ++ ')' :: rest2) := rfl
  unfold matchTsFindAt
  rw [h1, matchLit_self]
  dsimp only
  rw [takeWhile_append_cons _ path ')' rest2
    (fun c hc => by simp [isMetricChar_ne_rparen (hpath c hc)]) (by simp)]
  rw [dropWhile_append_cons _ path ')' rest2
    (fun c hc => by simp [isMetricChar_ne_rparen (hpath c hc)]) (by simp)]
  have hpe : path.isEmpty = false := by
    cases path with
    | nil => exact absurd rfl hne
    | cons c t => rfl
  simp [hpe]

theorem paren_not_in_famTail {ws1 op ws2 digits : Str}
    (hws1 : ∀ c ∈ ws1, isPySpace c = true) (hop : op ∈ opList)
    (hws2 : ∀ c ∈ ws2, isPySpace c = true)
    (hdigd : ∀ c ∈ digits, c.isDigit = true) :
    '(' ∉ ws1 ++ (op ++ (ws2 ++ digits)) := by
  intro hmem
  simp only [List.mem_append] at hmem
  rcases hmem with h | h | h | h
  · exact isPySpace_ne_paren (hws1 '(' h) rfl
  · exact op_chars_ne_paren hop '(' h rfl
  · exact isPySpace_ne_paren (hws2 '(' h) rfl
  · exact isDigit_ne_paren (hdigd '(' h) rfl

theorem findTs_fam {path ws1 op ws2 digits : Str} (hne : path ≠ [])
    (hpath : ∀ c ∈ path, isMetricChar c = true)
    (hws1 : ∀ c ∈ ws1, isPySpace c = true) (hop : op ∈ opList)
    (hws2 : ∀ c ∈ ws2, isPySpace c = true)
    (hdigd : ∀ c ∈ digits, c.isDigit = true) :
    reFindAll matchTsFindAt
        ('t' :: 's' :: '(' :: (path ++ ')' :: (ws1 ++ (op ++ (ws2 ++ digits))))) =
      [str "ts(" ++ path ++ str ")"] := by
  unfold reFindAll
  simp only [reFindGo,
    matchTsFindAt_pos path (ws1 ++ (op ++ (ws2 ++ digits))) hne hpath]
  have hmax : max (path.length + 4) 1 = path.length + 4 := by omega
  have hsplit : 't' :: 's' :: '(' :: (path ++ ')' :: (ws1 ++ (op ++ (ws2 ++ digits)))) =
      ('t' :: 's' :: '(' :: (path ++ [')'])) ++ (ws1 ++ (op ++ (ws2 ++ digits))) := by
    simp
  have hlen : ('t' :: 's' :: '(' :: (path ++ [')'])).length = path.length + 4 := by
    simp
  rw [hmax, hsplit, List.drop_left' hlen]
  rw [tsFind_none (paren_not_in_famTail hws1 hop hws2 hdigd) _]

theorem replace_strip_fam {path ws1 op ws2 digits : Str} (hne : path ≠ [])
    (hpath : ∀ c ∈ path, isMetricChar c = true)
    (hws1 : ∀ c ∈ ws1, isPySpace c = true) (hop : op ∈ opList)
    (hws2 : ∀ c ∈ ws2, isPySpace c = true)
    (hdig : digits ≠ []) (hdigd : ∀ c ∈ digits, c.isDigit = true) :
    pyStrip (pyReplace
        ('t' :: 's' :: '(' :: (path ++ ')' :: (ws1 ++ (op ++ (ws2 ++ digits)))))
        (str "ts(" ++ path ++ str ")") []) =
      op ++ (ws2 ++ digits) := by
  have hsub : (str "ts(" ++ path ++ str ")") = 't' :: 's' :: '(' :: (path ++ [')']) := rfl
  have hT : 't' :: 's' :: '(' :: (path ++ ')' :: (ws1 ++ (op ++ (ws2 ++ digits)))) =
      ('t' :: 's' :: '(' :: (path ++ [')'])) ++ (ws1 ++ (op ++ (ws2 ++ digits))) := by
    simp
  have hrep : pyReplace
      ('t' :: 's' :: '(' :: (path ++ ')' :: (ws1 ++ (op ++ (ws2 ++ digits)))))
      (str "ts(" ++ path ++ str ")") [] = ws1 ++ (op ++ (ws2 ++ digits)) := by
    unfold pyReplace
    rw [hsub]
    simp only [List.isEmpty_cons, Bool.false_eq_true, if_false]
    simp only [pyReplaceGo]
    have hb : begins
        ('t' :: 's' :: '(' :: (path ++ ')' :: (ws1 ++ (op ++ (ws2 ++ digits)))))
        ('t' :: 's' :: '(' :: (path ++ [')'])) = true := by
      rw [hT]; exact begins_append _ _
    rw [hb]
    simp only [if_true, List.nil_append]
    rw [show ('t' :: 's' :: '(' :: (path ++ ')' :: (ws1 ++ (op ++ (ws2 ++ digits))))).drop
        (('t' :: 's' :: '(' :: (path ++ [')'])).length) =
          ws1 ++ (op ++ (ws2 ++ digits)) by
      rw [hT]; exact List.drop_left _ _]
    apply pyReplaceGo_no_occur
    intro t ht
    cases hb2 : begins t ('t' :: 's' :: '(' :: (path ++ [')'])) with
    | false => rfl
    | true =>
      exfalso
      have hpre := (begins_iff _ _).1 hb2
      have : '(' ∈ t := hpre.subset (by simp)
      exact paren_not_in_famTail hws1 hop hws2 hdigd (ht.subset this)
  rw [hrep]
  unfold pyStrip
  rw [dropWhile_append_all isPySpace ws1 (op ++ (ws2 ++ digits)) hws1]
  obtain ⟨oc, ot, hopc⟩ : ∃ oc ot, op = oc :: ot := by
    have hopne : op ≠ [] := by
      simp only [opList, List.mem_cons, List.not_mem_nil, or_false] at hop
      rcases hop with rfl | rfl | rfl | rfl | rfl <;> simp [str]
    cases op with
    | nil => exact absurd rfl hopne
    | cons oc ot => exact ⟨oc, ot, rfl⟩
  rw [hopc]
  simp only [List.cons_append]
  rw [dropWhile_cons_neg _ _ _ (op_chars_nonws hop oc (by rw [hopc]; simp))]
  obtain ⟨c, w, hrev⟩ : ∃ c w, digits.reverse = c :: w := by
    cases hd : digits.reverse with
    | nil => exact absurd (by simpa using congrArg List.reverse hd) hdig
    | cons c w => exact ⟨c, w, rfl⟩
  have hc : isPySpace c = false :=
    isDigit_not_space (hdigd c (by rw [← List.mem_reverse, hrev]; simp))
  have hrw : (oc :: (ot ++ (ws2 ++ digits))).reverse =
      c :: (w ++ ((oc :: ot) ++ ws2).reverse) := by
    rw [show oc :: (ot ++ (ws2 ++ digits)) = ((oc :: ot) ++ ws2) ++ digits by simp,
      List.reverse_append, hrev]
    simp
  rw [hrw, dropWhile_cons_neg _ _ _ hc, ← hrw, List.reverse_reverse]

theorem dropWhile_digits {digits : Str} (hdig : digits ≠ [])
    (hdigd : ∀ c ∈ digits, c.isDigit = true) :
    List.dropWhile isPySpace digits = digits := by
  cases digits with
  | nil => rfl
  | cons d ds => exact dropWhile_cons_neg _ _ _ (isDigit_not_space (hdigd d (by simp)))

theorem matchNumTail_ws_digits {ws digits : Str} (hws : ∀ c ∈ ws, isPySpace c = true)
    (hdig : digits ≠ []) (hdigd : ∀ c ∈ digits, c.isDigit = true) :
    matchNumTail (ws ++ digits) = some digits := by
  unfold matchNumTail
  rw [dropWhile_append_all isPySpace ws digits hws]
  rw [dropWhile_digits hdig hdigd]
  rw [takeWhile_all isDigitDot digits (fun c hc => by simp [isDigitDot, hdigd c hc])]
  have : digits.isEmpty = false := by
    cases digits with
    | nil => exact absurd rfl hdig
    | cons d ds => rfl
  simp [this]

theorem threshold_fam {op ws2 digits : Str} (hop : op ∈ opList)
    (hws2 : ∀ c ∈ ws2, isPySpace c = true)
    (hdig : digits ≠ []) (hdigd : ∀ c ∈ digits, c.isDigit = true) :
    reSearch matchThresholdAt (op ++ (ws2 ++ digits)) = some (op, digits) := by
  have hnum := matchNumTail_ws_digits hws2 hdig hdigd
  obtain ⟨d0, ds, hdc⟩ : ∃ d0 ds, digits = d0 :: ds := by
    cases digits with
    | nil => exact absurd rfl hdig
    | cons d0 ds => exact ⟨d0, ds, rfl⟩
  simp only [opList, List.mem_cons, List.not_mem_nil, or_false] at hop
  rcases hop with rfl | rfl | rfl | rfl | rfl
  · -- op = "<"
    rcases ws2 with _ | ⟨w, ws'⟩
    · rw [hdc] at hnum ⊢
      have hd : d0 ≠ '=' := isDigit_ne_eq (hdigd d0 (by rw [hdc]; simp))
      simp only [List.nil_append] at hnum ⊢
      simp [reSearch, matchThresholdAt, hd, hnum, str]
    · have hw : w ≠ '=' := isPySpace_ne_eq (hws2 w (by simp))
      simp only [List.cons_append] at hnum
      simp [reSearch, matchThresholdAt, hw, hnum, str]
  · -- op = ">"
    rcases ws2 with _ | ⟨w, ws'⟩
    · rw [hdc] at hnum ⊢
      have hd : d0 ≠ '=' := isDigit_ne_eq (hdigd d0 (by rw [hdc]; simp))
      simp only [List.nil_append] at hnum ⊢
      simp [reSearch, matchThresholdAt, hd, hnum, str]
    · have hw : w ≠ '=' := isPySpace_ne_eq (hws2 w (by simp))
      simp only [List.cons_append] at hnum
      simp [reSearch, matchThresholdAt, hw, hnum, str]
  · -- op = "<="
    simp [reSearch, matchThresholdAt, hnum, str]
  · -- op = ">="
    simp [reSearch, matchThresholdAt, hnum, str]
  · -- op = "="
    simp [reSearch, matchThresholdAt, hnum, str]

theorem pyFloatQ_digits {digits : Str} (hdig : digits ≠ [])
    (hdigd : ∀ c ∈ digits, c.isDigit = true) :
    pyFloatQ digits = some ((digitsToNat digits : ℚ)) := by
  unfold pyFloatQ
  rw [takeWhile_all Char.isDigit digits hdigd]
  dsimp only
  rw [List.drop_length]
  have : digits.isEmpty = false := by
    cases digits with
    | nil => exact absurd rfl hdig
    | cons d ds => rfl
  simp [this]

theorem pyUpper_cond_ne (rest : Str) :
    ¬(pyUpper ('t' :: rest) = str "AND" ∨ pyUpper ('t' :: rest) = str "OR") := by
  rintro (h | h) <;>
    · simp only [pyUpper, List.map_cons] at h
      injection h with h1 h2
      exact absurd h1 (by decide)

theorem parse_fam {path ws1 op ws2 digits : Str} (hne : path ≠ [])
    (hpath : ∀ c ∈ path, isMetricChar c = true)
    (hws1 : ∀ c ∈ ws1, isPySpace c = true) (hop : op ∈ opList)
    (hws2 : ∀ c ∈ ws2, isPySpace c = true)
    (hdig : digits ≠ []) (hdigd : ∀ c ∈ digits, c.isDigit = true) :
    parseWavefrontCondition (famCond path ws1 op ws2 digits) =
      .ok ([.qdict (str "ts(" ++ path ++ str ")") op ((digitsToNat digits : ℚ))],
        ⟨str "gt", 0⟩) := by
  rw [famCond_eq]
  unfold parseWavefrontCondition
  rw [splitAndOr_single _ (noSep_fam hpath hws1 hop hws2 hdig hdigd)]
  unfold processParts processPart
  rw [if_neg (pyUpper_cond_ne _)]
  rw [findTs_fam hne hpath hws1 hop hws2 hdigd]
  simp only [processTsMatches, processTsMatch, processParts,
    replace_strip_fam hne hpath hws1 hop hws2 hdig hdigd,
    threshold_fam hop hws2 hdig hdigd, pyFloatQ_digits hdig hdigd]
  simp

theorem noKw2 {l : Str} (H : ParenOnlyAfterS l) (kw a : Str) (c : Char)
    (b : Str) (hkw : kw = a ++ c :: '(' :: b) (hc : c ≠ 's') :
    strContains l kw = false := by
  rw [hkw]; exact noKw H a c b hc

theorem paren_not_mem_map_lower {rest : Str} (h : '(' ∉ rest) :
    '(' ∉ rest.map pyLowerChar := by
  intro hm
  rcases List.mem_map.1 hm with ⟨c, hc, hlc⟩
  exact h ((pyLowerChar_ne_paren hlc) ▸ hc)

/-- On a query whose only `'('` is the one of its leading `ts(`, every
reducer keyword test fails and `_determine_reducer_type` returns `last`. -/
theorem reducer_last {rest : Str} (hp : '(' ∉ rest) :
    determineReducerType ('t' :: 's' :: '(' :: rest) = str "last" := by
  have H : ParenOnlyAfterS ('t' :: 's' :: '(' :: (rest.map pyLowerChar)) :=
    paren_after_s (paren_not_mem_map_lower hp)
  have hcl : pyLower ('t' :: 's' :: '(' :: rest) =
      't' :: 's' :: '(' :: (rest.map pyLowerChar) := rfl
  unfold determineReducerType
  dsimp only
  rw [hcl]
  simp only [noKw2 H (str "avg(") ['a', 'v'] 'g' [] rfl (by decide),
    noKw2 H (str "mavg(") ['m', 'a', 'v'] 'g' [] rfl (by decide),
    noKw2 H (str "sum(") ['s', 'u'] 'm' [] rfl (by decide),
    noKw2 H (str "max(") ['m', 'a'] 'x' [] rfl (by decide),
    noKw2 H (str "min(") ['m', 'i'] 'n' [] rfl (by decide),
    noKw2 H (str "count(") ['c', 'o', 'u', 'n'] 't' [] rfl (by decide),
    noKw2 H (str "stddev(") ['s', 't', 'd', 'd', 'e'] 'v' [] rfl (by decide),
    noKw2 H (str "last(") ['l', 'a', 's'] 't' [] rfl (by decide),
    noKw2 H (str "median(") ['m', 'e', 'd', 'i', 'a'] 'n' [] rfl (by decide),
    noKw2 H (str "first(") ['f', 'i', 'r', 's'] 't' [] rfl (by decide)]
  simp

theorem paren_not_in_famRest {path ws1 op ws2 digits : Str}
    (hpath : ∀ c ∈ path, isMetricChar c = true)
    (hws1 : ∀ c ∈ ws1, isPySpace c = true) (hop : op ∈ opList)
    (hws2 : ∀ c ∈ ws2, isPySpace c = true)
    (hdigd : ∀ c ∈ digits, c.isDigit = true) :
    '(' ∉ path ++ ')' :: (ws1 ++ (op ++ (ws2 ++ digits))) := by
  intro hm
  rcases List.mem_append.1 hm with h | h
  · exact isMetricChar_ne_paren (hpath '(' h) rfl
  · rcases List.mem_cons.1 h with h2 | h2
    · exact absurd h2 (by decide)
    · exact paren_not_in_famTail hws1 hop hws2 hdigd h2

/-- Claim C4 (amended): for every free-text condition whose single bare
`ts(path)` selector is directly followed — within one `AND`/`OR`-free
segment, with arbitrary (possibly empty) whitespace runs around the
comparator — by one comparator in `<`, `>`, `<=`, `>=`, `=` and one integer
literal of at most 15 digits (within which an IEEE double is exact, so the
exact-rational float model is faithful), `_parse_wavefront_condition`
yields exactly one sub-query whose operator and literal match the source
text, and `build_alert` returns a rule whose `data` array is exactly the
3-node chain `mkQueryNodeA` (refId `A`), `mkReduceNodeB` (refId `B`,
expression `A`), `mkThresholdNodeC` (refId `C`, expression `B`, evaluator
`_map_operator op` with params `[literal]`), and whose `condition` is `"C"`
(the field set by `mkAlertRule`).  The adjacency restriction is forced: the
one-selector one-threshold condition of the counterexample puts an `AND`
between selector and threshold, and the threshold then degrades to the
default `gt`/`0`. -/
theorem claim_C4 (b : GrafanaAlertBuilder) (wf : WfAlert) (folderUid ruleGroup : Str)
    (path ws1 op ws2 digits : Str) (hne : path ≠ [])
    (hpath : ∀ c ∈ path, isMetricChar c = true)
    (hws1 : ∀ c ∈ ws1, isPySpace c = true) (hop : op ∈ opList)
    (hws2 : ∀ c ∈ ws2, isPySpace c = true)
    (hdig : digits ≠ []) (hdigd : ∀ c ∈ digits, c.isDigit = true)
    (hlen : digits.length ≤ 15)
    (hcond : wf.condition = some (famCond path ws1 op ws2 digits)) :
    parseWavefrontCondition (famCond path ws1 op ws2 digits) =
      .ok ([.qdict (str "ts(" ++ path ++ str ")") op ((digitsToNat digits : ℚ))],
        ⟨str "gt", 0⟩) ∧
    (buildAlert b wf folderUid ruleGroup).1 =
      .ok (mkAlertRule wf folderUid ruleGroup
        [mkQueryNodeA b (translateQuery (str "ts(" ++ path ++ str ")") b.datasourceType),
         mkReduceNodeB (str "last"),
         mkThresholdNodeC ⟨mapOperator op, (digitsToNat digits : ℚ)⟩]) := by
  have hparse := parse_fam hne hpath hws1 hop hws2 hdig hdigd
  refine ⟨hparse, ?_⟩
  unfold buildAlert
  rw [hcond]
  dsimp only [Option.getD]
  rw [hparse]
  dsimp only
  rw [famCond_eq, reducer_last (paren_not_in_famRest hpath hws1 hop hws2 hdigd)]

theorem matchTsAt_pos (path : Str) (hne : path ≠ [])
    (hpath : ∀ c ∈ path, isMetricChar c = true) :
    matchTsAt ('t' :: 's' :: '(' :: (path ++ [')'])) = some (path, []) := by
  have h1 : 't' :: 's' :: '(' :: (path ++ [')']) = str "ts(" ++ (path ++ [')']) := rfl
  unfold matchTsAt
  rw [h1, matchLit_self]
  dsimp only
  rw [takeWhile_append_cons isMetricChar path ')' [] (fun c hc => hpath c hc) (by decide)]
  rw [dropWhile_append_cons isMetricChar path ')' [] (fun c hc => hpath c hc) (by decide)]
  have hpe : path.isEmpty = false := by
    cases path with
    | nil => exact absurd rfl hne
    | cons c t => rfl
  simp [hpe]

theorem applyAgg_id {wl : Str} (H : ParenOnlyAfterS wl) (base : Str) :
    applyAggregation wl base = base := by
  have hm : mavgTest wl = false := by
    unfold mavgTest
    rw [mavgSearch_none H]
    rfl
  unfold applyAggregation
  simp only [hm,
    noKw2 H (str "rate(") ['r', 'a', 't'] 'e' [] rfl (by decide),
    noKw2 H (str "percentile(") ['p', 'e', 'r', 'c', 'e', 'n', 't', 'i', 'l'] 'e' []
      rfl (by decide),
    noKw2 H (str "avg(") ['a', 'v'] 'g' [] rfl (by decide),
    noKw2 H (str "sum(") ['s', 'u'] 'm' [] rfl (by decide),
    noKw2 H (str "max(") ['m', 'a'] 'x' [] rfl (by decide),
    noKw2 H (str "min(") ['m', 'i'] 'n' [] rfl (by decide),
    noKw2 H (str "count(") ['c', 'o', 'u', 'n'] 't' [] rfl (by decide),
    noKw2 H (str "stddev(") ['s', 't', 'd', 'd', 'e'] 'v' [] rfl (by decide),
    noKw2 H (str "deriv(") ['d', 'e', 'r', 'i'] 'v' [] rfl (by decide),
    noKw2 H (str "last(") ['l', 'a', 's'] 't' [] rfl (by decide)]
  simp

theorem applyAlias_id {wql : Str} (H : ParenOnlyAfterS wql) (p : Str) :
    applyAlias wql p = p := by
  unfold applyAlias
  rw [aliasSearch_none H]

theorem paren_not_in_selRest {path : Str} (hpath : ∀ c ∈ path, isMetricChar c = true) :
    '(' ∉ path ++ [')'] := by
  intro hm
  simp only [List.mem_append, List.mem_singleton] at hm
  rcases hm with h | h
  · exact isMetricChar_ne_paren (hpath '(' h) rfl
  · exact absurd h (by decide)

theorem wqlToPromql_selector {path : Str} (hne : path ≠ [])
    (hpath : ∀ c ∈ path, isMetricChar c = true) :
    wqlToPromql ('t' :: 's' :: '(' :: (path ++ [')'])) =
      pyReplace path (str ".") (str "_") := by
  have hp := paren_not_in_selRest hpath
  have H : ParenOnlyAfterS ('t' :: 's' :: '(' :: (path ++ [')'])) := paren_after_s hp
  have HL : ParenOnlyAfterS ('t' :: 's' :: '(' :: ((path ++ [')']).map pyLowerChar)) :=
    paren_after_s (paren_not_mem_map_lower hp)
  have hsearch : reSearch matchTsAt ('t' :: 's' :: '(' :: (path ++ [')'])) =
      some (path, []) := by
    simp [reSearch, matchTsAt_pos path hne hpath]
  unfold wqlToPromql
  rw [hsearch]
  dsimp only
  rw [show reFindAll matchTagAt ([] : Str) = [] from rfl]
  have hlow : pyLower ('t' :: 's' :: '(' :: (path ++ [')'])) =
      't' :: 's' :: '(' :: ((path ++ [')']).map pyLowerChar) := rfl
  rw [hlow, applyAgg_id HL, applyAlias_id H]
  simp [pyDict]

theorem wqlToInfluxql_selector {path : Str} (hne : path ≠ [])
    (hpath : ∀ c ∈ path, isMetricChar c = true) :
    wqlToInfluxql ('t' :: 's' :: '(' :: (path ++ [')'])) =
      str "SELECT mean(\"value\") FROM \"" ++ path ++
        str "\" GROUP BY time($__interval) fill(null)" := by
  have hp := paren_not_in_selRest hpath
  have H : ParenOnlyAfterS ('t' :: 's' :: '(' :: (path ++ [')'])) := paren_after_s hp
  have hsearch : reSearch matchTsAt ('t' :: 's' :: '(' :: (path ++ [')'])) =
      some (path, []) := by
    simp [reSearch, matchTsAt_pos path hne hpath]
  unfold wqlToInfluxql
  rw [hsearch]
  dsimp only
  rw [show reFindAll matchTagAt ([] : Str) = [] from rfl]
  simp only [noKw2 H (str "avg(") ['a', 'v'] 'g' [] rfl (by decide),
    noKw2 H (str "sum(") ['s', 'u'] 'm' [] rfl (by decide),
    noKw2 H (str "max(") ['m', 'a'] 'x' [] rfl (by decide),
    noKw2 H (str "min(") ['m', 'i'] 'n' [] rfl (by decide)]
  simp [List.append_assoc]
  rfl

theorem pyReplaceGo_single (a b : Char) :
    ∀ (l : Str) (n : Nat), l.length ≤ n →
      pyReplaceGo [a] [b] n l = l.map (fun c => if c = a then b else c) := by
  intro l
  induction l with
  | nil => intro n hn; cases n <;> rfl
  | cons c t ih =>
    intro n hn
    cases n with
    | zero => simp at hn
    | succ m =>
      have hm : t.length ≤ m := by simpa using hn
      by_cases hca : c = a
      · subst hca
        have hb : begins (c :: t) [c] = true := by simp [begins]
        simp only [pyReplaceGo, hb, if_true]
        simp [ih m hm]
      · have hb : begins (c :: t) [a] = false := by simp [begins, hca]
        simp only [pyReplaceGo, hb, Bool.false_eq_true, if_false]
        simp [ih m hm, hca]

theorem pyReplace_single (a b : Char) (l : Str) :
    pyReplace l [a] [b] = l.map (fun c => if c = a then b else c) := by
  unfold pyReplace
  simp only [List.isEmpty_cons, Bool.false_eq_true, if_false]
  exact pyReplaceGo_single a b l (l.length + 1) (by omega)

theorem isSegChar_metric {c : Char} (h : isSegChar c = true) : isMetricChar c = true := by
  simp only [isSegChar, Bool.or_eq_true] at h
  simp only [isMetricChar, Bool.or_eq_true]
  rcases h with h | h
  · exact Or.inl (Or.inl h)
  · exact Or.inr h

theorem isSegChar_ne_dot {c : Char} (h : isSegChar c = true) : c ≠ '.' := by
  rintro rfl
  exact absurd h (by decide)

theorem joinDots_chars {segs : List Str}
    (hs : ∀ s ∈ segs, s ≠ [] ∧ ∀ c ∈ s, isSegChar c = true) :
    ∀ c ∈ joinDots segs, isMetricChar c = true := by
  induction segs with
  | nil => intro c hc; simp [joinDots, joinStr] at hc
  | cons s rest ih =>
    intro c hc
    cases rest with
    | nil =>
      exact isSegChar_metric ((hs s (by simp)).2 c (by simpa [joinDots, joinStr] using hc))
    | cons s' rest' =>
      simp only [joinDots, joinStr, List.mem_append] at hc
      rcases hc with (hc | hc) | hc
      · exact isSegChar_metric ((hs s (by simp)).2 c hc)
      · have : c = '.' := by simpa [show (str ".") = ['.'] from rfl] using hc
        subst this
        decide
      · exact ih (fun t ht => hs t (by simp [ht])) c (by simpa [joinDots] using hc)

theorem joinDots_ne_nil {segs : List Str} (hne : segs ≠ [])
    (hs : ∀ s ∈ segs, s ≠ [] ∧ ∀ c ∈ s, isSegChar c = true) :
    joinDots segs ≠ [] := by
  cases segs with
  | nil => exact absurd rfl hne
  | cons s rest =>
    cases rest with
    | nil => simpa [joinDots, joinStr] using (hs s (by simp)).1
    | cons s' rest' =>
      simp only [joinDots, joinStr]
      intro h
      rcases List.append_eq_nil.1 h with ⟨h1, _⟩
      rcases List.append_eq_nil.1 h1 with ⟨h2, _⟩
      exact (hs s (by simp)).1 h2

theorem map_noop {f : Char → Char} : ∀ l : Str, (∀ c ∈ l, f c = c) → l.map f = l := by
  intro l h
  induction l with
  | nil => rfl
  | cons c t ih =>
    simp only [List.map_cons, h c (by simp), ih (fun d hd => h d (by simp [hd]))]

theorem map_dot_joinDots {segs : List Str}
    (hs : ∀ s ∈ segs, s ≠ [] ∧ ∀ c ∈ s, isSegChar c = true) :
    (joinDots segs).map (fun c => if c = '.' then '_' else c) =
      joinStr (str "_") segs := by
  induction segs with
  | nil => rfl
  | cons s rest ih =>
    have hseg : s.map (fun c => if c = '.' then '_' else c) = s := by
      apply map_noop
      intro c hc
      simp [isSegChar_ne_dot ((hs s (by simp)).2 c hc)]
    cases rest with
    | nil => simpa [joinDots, joinStr] using hseg
    | cons s' rest' =>
      simp only [joinDots, joinStr] at ih ⊢
      rw [List.map_append, List.map_append, hseg,
        ih (fun t ht => hs t (by simp [ht]))]
      rfl

/-- Claim C7 (confirmed): for every selector `ts(a.b.c)` over a dot-separated
metric path of dot-free segments, the PromQL translation's metric identifier
is the underscore-joined path (every dot replaced by `_`), and the InfluxQL
translation's quoted measurement name is the dot-joined path verbatim. -/
theorem claim_C7 (segs : List Str) (hne : segs ≠ [])
    (hs : ∀ s ∈ segs, s ≠ [] ∧ ∀ c ∈ s, isSegChar c = true) :
    wqlToPromql (str "ts(" ++ joinDots segs ++ str ")") = joinStr (str "_") segs ∧
    wqlToInfluxql (str "ts(" ++ joinDots segs ++ str ")") =
      str "SELECT mean(\"value\") FROM \"" ++ joinDots segs ++
        str "\" GROUP BY time($__interval) fill(null)" := by
  have hform : str "ts(" ++ joinDots segs ++ str ")" =
      't' :: 's' :: '(' :: (joinDots segs ++ [')']) := rfl
  have hpne := joinDots_ne_nil hne hs
  have hchars := joinDots_chars hs
  constructor
  · rw [hform, wqlToPromql_selector hpne hchars,
      show (str ".") = ['.'] from rfl, show (str "_") = ['_'] from rfl,
      pyReplace_single, map_dot_joinDots hs]
    rfl
  · rw [hform, wqlToInfluxql_selector hpne hchars]

theorem firstMatchWrap_cons (r : AggRule) (rs : List AggRule) (wl base : Str) :
    firstMatchWrap (r :: rs) wl base =
      if r.test wl then r.wrap wl base else firstMatchWrap rs wl base := by
  unfold firstMatchWrap
  cases h : r.test wl <;> simp [List.find?, h]

/-- Claim C6 (confirmed): the PromQL translator's aggregation stage wraps the
translated selector in at most one transform, chosen by scanning the
(lowercased) expression for the function keywords in the fixed priority
order moving-average → rate → percentile → avg → sum → max → min → count →
stddev → derivative → last: the stage equals the first-match policy over the
`priorityRules` table (each entry's test being the branch's own guard — the
moving-average entry tests the full windowed pattern, the rest test bare
keyword occurrence), so co-occurring keywords are never composed. -/
theorem claim_C6 (wl base : Str) :
    applyAggregation wl base = firstMatchWrap priorityRules wl base := by
  simp only [priorityRules, firstMatchWrap_cons]
  rfl

/-- Claim C5 (corrected): every rule `build_alert` actually returns is
reference-closed (each node's expression names an earlier refId) and carries
condition `"C"`; its data is either the three-node `A`/`B`/`C` chain (whose
last node is the Threshold node with refId `"C"`, so the condition names the
Threshold node) or — contrary to the claim's "returns nothing" — the empty
array, in which case condition `"C"` names no node at all. -/
theorem claim_C5 (b : GrafanaAlertBuilder) (wf : WfAlert) (folderUid ruleGroup : Str)
    (r : AlertRule) (h : (buildAlert b wf folderUid ruleGroup).1 = .ok r) :
    wellChained [] r.data = true ∧ r.condition = str "C" ∧
    (r.data = [] ∨ ∃ tq red ti, r.data =
      [mkQueryNodeA b tq, mkReduceNodeB red, mkThresholdNodeC ti]) := by
  unfold buildAlert at h
  dsimp only at h
  cases hp : parseWavefrontCondition (wf.condition.getD []) with
  | error e =>
    rw [hp] at h
    exact absurd h (by simp)
  | ok qt =>
    obtain ⟨queries, ti0⟩ := qt
    rw [hp] at h
    dsimp only at h
    cases queries with
    | nil =>
      simp only [Except.ok.injEq] at h
      subst h
      exact ⟨rfl, rfl, Or.inl rfl⟩
    | cons q0 restQ =>
      cases restQ with
      | nil =>
        simp only [Except.ok.injEq] at h
        subst h
        exact ⟨rfl, rfl, Or.inr ⟨_, _, _, rfl⟩⟩
      | cons q1 restQ' =>
        exact absurd h (by simp)

/-- Claim C5 counterexample: a record whose condition parses to no sub-query
(and no threshold) still gets a rule — with an empty `data` array — rather
than the builder returning nothing. -/
theorem claim_C5_cex :
    emptyCondAlert.condition = some [] ∧
    ((buildAlert sampleBuilder emptyCondAlert (str "fold") (str "grp")).1.toOption.map
      (fun r => r.data.length)) = some 0 :=
  ⟨rfl, rfl⟩

theorem claim_C5_check :
    (buildAlert sampleBuilder singleCondAlert (str "fold") (str "grp")).1 =
      .ok singleRule ∧
    (wellChained [] singleRule.data = true ∧ singleRule.condition = str "C" ∧
      (singleRule.data = [] ∨ ∃ tq red ti, singleRule.data =
        [mkQueryNodeA sampleBuilder tq, mkReduceNodeB red, mkThresholdNodeC ti])) :=
  ⟨rfl, claim_C5 sampleBuilder singleCondAlert (str "fold") (str "grp") singleRule rfl⟩

/-- Claim C10 (corrected): if the lowercased expression contains `mavg(` but
the moving-average window pattern does not match, then — provided no
higher-priority keyword (`rate(`, `percentile(`) occurs — the aggregation
stage applies the plain `avg(...)` wrapper, because `avg(` occurs inside
`mavg(`; concretely `wql_to_promql("mavg(10, ts(m))") = "avg(m)"`. -/
theorem claim_C10 :
    (∀ wl base : Str, strContains wl (str "mavg(") = true →
      mavgTest wl = false →
      strContains wl (str "rate(") = false →
      strContains wl (str "percentile(") = false →
      applyAggregation wl base = str "avg(" ++ base ++ str ")") ∧
    wqlToPromql (str "mavg(10, ts(m))") = str "avg(m)" := by
  constructor
  · intro wl base hmavgkw hmavgWin hrate hperc
    have havg : strContains wl (str "avg(") = true := by
      rw [strContains_iff] at hmavgkw ⊢
      exact (show (str "avg(") <:+: (str "mavg(") from ⟨['m'], [], rfl⟩).trans hmavgkw
    unfold applyAggregation fnWrap
    simp [hmavgWin, hrate, hperc, havg]
    rfl
  · rfl

/-- Claim C10 counterexample: an expression with a malformed `mavg` window
*and* a co-occurring `rate(` keyword takes the higher-priority rate branch,
not the plain `avg(...)` wrapper the claim predicts for every such
expression. -/
theorem claim_C10_cex :
    strContains (pyLower (str "mavg(10, rate(ts(m)))")) (str "mavg(") = true ∧
    mavgTest (pyLower (str "mavg(10, rate(ts(m)))")) = false ∧
    wqlToPromql (str "mavg(10, rate(ts(m)))") = str "rate(m[5m])" ∧
    wqlToPromql (str "mavg(10, rate(ts(m)))") ≠ str "avg(" ++ str "m" ++ str ")" :=
  ⟨rfl, rfl, rfl, by decide⟩

theorem claim_C10_check :
    (strContains (pyLower (str "mavg(10, ts(m))")) (str "mavg(") = true ∧
     mavgTest (pyLower (str "mavg(10, ts(m))")) = false ∧
     strContains (pyLower (str "mavg(10, ts(m))")) (str "rate(") = false ∧
     strContains (pyLower (str "mavg(10, ts(m))")) (str "percentile(") = false) ∧
    applyAggregation (pyLower (str "mavg(10, ts(m))")) (str "m") =
      str "avg(" ++ str "m" ++ str ")" :=
  ⟨⟨rfl, rfl, rfl, rfl⟩, claim_C10.1 _ _ rfl rfl rfl rfl⟩

/-- Claim C8 (confirmed): `_convert_duration` maps an integer minute count `m`
to `"{m}m"` when `m < 60`, `"{m // 60}h"` (floor division) when
`60 ≤ m < 1440`, and `"{m // 1440}d"` otherwise; in particular 5 ↦ `"5m"`,
90 ↦ `"1h"` (the remaining 30 minutes discarded), 1500 ↦ `"1d"`. -/
theorem claim_C8 :
    (∀ m : Int,
      (m < 60 → convertDuration m = intRepr m ++ str "m") ∧
      (60 ≤ m → m < 1440 → convertDuration m = intRepr (Int.fdiv m 60) ++ str "h") ∧
      (1440 ≤ m → convertDuration m = intRepr (Int.fdiv m 1440) ++ str "d")) ∧
    convertDuration 5 = str "5m" ∧ convertDuration 90 = str "1h" ∧
    convertDuration 1500 = str "1d" := by
  refine ⟨fun m => ⟨?_, ?_, ?_⟩, by decide, by decide, by decide⟩
  · intro h
    unfold convertDuration
    rw [if_pos h]
  · intro h1 h2
    unfold convertDuration
    rw [if_neg (by omega), if_pos h2]
  · intro h
    unfold convertDuration
    rw [if_neg (by omega), if_neg (by omega)]

theorem claim_C8_check :
    ((60 : Int) ≤ 90 ∧ (90 : Int) < 1440) ∧
    convertDuration 90 = intRepr (Int.fdiv 90 60) ++ str "h" :=
  ⟨⟨by decide, by decide⟩, (claim_C8.1 90).2.1 (by decide) (by decide)⟩

/-- Claim C9 (confirmed): `build_alert` is deterministic and free of hidden
state: the builder object comes back unchanged, and re-running the call on
the returned builder with the same record yields the identical result. -/
theorem claim_C9 (b : GrafanaAlertBuilder) (wf : WfAlert) (folderUid ruleGroup : Str) :
    (buildAlert b wf folderUid ruleGroup).2 = b ∧
    (buildAlert ((buildAlert b wf folderUid ruleGroup).2) wf folderUid ruleGroup).1 =
      (buildAlert b wf folderUid ruleGroup).1 :=
  ⟨rfl, rfl⟩

/-- Claim C1 (corrected): `build_alert` never consults the record's `status`
field — its output is invariant under replacing the status by any other
value, so a `SNOOZED` record is *not* skipped. -/
theorem claim_C1 (b : GrafanaAlertBuilder) (wf : WfAlert) (folderUid ruleGroup : Str)
    (st1 st2 : StatusField) :
    buildAlert b { wf with status := st1 } folderUid ruleGroup =
      buildAlert b { wf with status := st2 } folderUid ruleGroup :=
  rfl

/-- Claim C1 counterexample: for a record with `status = "SNOOZED"` and an
ordinary condition, the builder returns a full 3-node rule graph instead of
returning nothing. -/
theorem claim_C1_cex :
    snoozedAlert.status = .strVal (str "SNOOZED") ∧
    ((buildAlert sampleBuilder snoozedAlert (str "fold") (str "grp")).1.toOption.map
      (fun r => r.data.length)) = some 3 :=
  ⟨rfl, rfl⟩

/-- Claim C2 (corrected): `build_alert` never reads `alertSources` or
`conditions` — its output is invariant under replacing them — and a
structured-shape record (no free-text `condition` string) yields a rule with
an *empty* `data` array and dangling condition `"C"`, not a Threshold graph. -/
theorem claim_C2 :
    (∀ (b : GrafanaAlertBuilder) (wf : WfAlert) (folderUid ruleGroup : Str)
      (srcs conds : List (Str × Str)),
      buildAlert b { wf with alertSources := srcs, conditions := conds }
        folderUid ruleGroup = buildAlert b wf folderUid ruleGroup) ∧
    (∀ (b : GrafanaAlertBuilder) (wf : WfAlert) (folderUid ruleGroup : Str),
      wf.condition = none →
      ((buildAlert b wf folderUid ruleGroup).1.toOption.map
        (fun r => (r.data, r.condition))) = some ([], str "C")) := by
  refine ⟨fun b wf f g srcs conds => rfl, fun b wf f g h => ?_⟩
  unfold buildAlert
  rw [h]
  rfl

/-- Claim C2 counterexample: the exact structured record of the claim
(sub-queries `[{name:"X", query:"ts(m)"}]`, conditions
`{"severe": "${X} > 10"}`) produces a rule whose data array is empty — there
is no Threshold node with comparator `gt` and literal `10` at all. -/
theorem claim_C2_cex :
    structuredAlert.alertSources = [(str "X", str "ts(m)")] ∧
    structuredAlert.conditions = [(str "severe", str "$\x7bX\x7d > 10")] ∧
    ((buildAlert sampleBuilder structuredAlert (str "fold") (str "grp")).1.toOption.map
      (fun r => r.data)) = some [] :=
  ⟨rfl, rfl, rfl⟩

theorem claim_C2_check :
    structuredAlert.condition = none ∧
    ((buildAlert sampleBuilder structuredAlert (str "f") (str "g")).1.toOption.map
      (fun r => (r.data, r.condition))) = some ([], str "C") :=
  ⟨rfl, claim_C2.2 sampleBuilder structuredAlert (str "f") (str "g") rfl⟩

/-- Claim C3 (code bug): on a free-text condition with two sub-query/threshold
pairs joined by `AND`, `build_alert` does not return a chained rule — it
executes `alert_rule["condition"] = current_ref` before `alert_rule` is
assigned and raises `UnboundLocalError`. -/
theorem claim_C3 :
    multiCondAlert.condition = some (str "ts(cpu.a) > 1 AND ts(cpu.b) < 2") ∧
    (buildAlert sampleBuilder multiCondAlert (str "fold") (str "grp")).1 =
      .error .unboundLocalAlertRule :=
  ⟨rfl, rfl⟩

theorem claim_C4_check :
    (str "disk.free" ≠ [] ∧ (∀ c ∈ str "disk.free", isMetricChar c = true) ∧
     (∀ c ∈ str " ", isPySpace c = true) ∧ str "<" ∈ opList ∧
     str "20" ≠ [] ∧ (∀ c ∈ str "20", c.isDigit = true) ∧ (str "20").length ≤ 15 ∧
     singleCondAlert.condition =
       some (famCond (str "disk.free") (str " ") (str "<") (str " ") (str "20"))) ∧
    (buildAlert sampleBuilder singleCondAlert (str "fo") (str "gr")).1 =
      .ok (mkAlertRule singleCondAlert (str "fo") (str "gr")
        [mkQueryNodeA sampleBuilder (translateQuery
          (str "ts(" ++ str "disk.free" ++ str ")") sampleBuilder.datasourceType),
         mkReduceNodeB (str "last"),
         mkThresholdNodeC ⟨mapOperator (str "<"), (digitsToNat (str "20") : ℚ)⟩]) :=
  ⟨⟨by decide, by decide, by decide, by decide, by decide, by decide, by decide, rfl⟩,
   (claim_C4 sampleBuilder singleCondAlert (str "fo") (str "gr")
     (str "disk.free") (str " ") (str "<") (str " ") (str "20") (by decide) (by decide)
     (by decide) (by decide) (by decide) (by decide) (by decide) (by decide) rfl).2⟩

/-- Claim C4 counterexample: the condition `ts(m) AND < 5` contains exactly
one `ts(...)` selector and one comparator+literal (`<` with `5`), yet the
`AND` between them makes `re.split` place the threshold in a segment with no
selector: the parser emits the sub-query with the DEFAULT operator `>` and
value `0` — not the source text's `<`/`5` — and the built rule's Threshold
node evaluates `gt` against params `[0]`. -/
theorem claim_C4_cex :
    reFindAll matchTsFindAt (str "ts(m) AND < 5") = [str "ts(m)"] ∧
    reSearch matchThresholdAt (str "ts(m) AND < 5") = some (str "<", str "5") ∧
    parseWavefrontCondition (str "ts(m) AND < 5") =
      .ok ([.qdict (str "ts(m)") (str ">") 0], ⟨str "gt", 0⟩) ∧
    (str ">", (0 : ℚ)) ≠ (str "<", (5 : ℚ)) ∧
    andCexAlert.condition = some (str "ts(m) AND < 5") ∧
    ((buildAlert sampleBuilder andCexAlert (str "fold") (str "grp")).1.toOption.map
      (fun r => r.data)) = some
        [mkQueryNodeA sampleBuilder (translateQuery (str "ts(m)") .prometheus),
         mkReduceNodeB (str "last"),
         mkThresholdNodeC ⟨str "gt", 0⟩] :=
  ⟨rfl, rfl, rfl, by decide, rfl, rfl⟩

theorem claim_C7_check :
    ([str "a", str "b", str "c"] ≠ ([] : List Str) ∧
     (∀ s ∈ [str "a", str "b", str "c"], s ≠ [] ∧ ∀ c ∈ s, isSegChar c = true)) ∧
    wqlToPromql (str "ts(" ++ joinDots [str "a", str "b", str "c"] ++ str ")") =
      joinStr (str "_") [str "a", str "b", str "c"] :=
  ⟨⟨by decide, by decide⟩,
   (claim_C7 [str "a", str "b", str "c"] (by decide) (by decide)).1⟩
